import Mathlib

/-!
Verification of the Minesweeper grid engine (unkokaeru/minesweeper).

The repository contains two variants of the same engine: a modular one
(src/models/cell.py, src/models/grid.py, src/logic/game_logic.py,
src/handlers/event_handlers.py) and an older monolithic one
(src/game_logic.py, class Minesweeper) whose flood fill is line-for-line
the same algorithm over tuple-encoded cells.  The definitions below embed
the modular variant; where the monolithic one differs observably (the TAB
reveal-all handler) both are embedded.

Rendering, animation, logging and the pygame event loop are presentation
layer collaborators and are not modelled.
-/

namespace Minesweeper

/-- A cell of the grid (cell.py, Cell.__init__): value -1 is a bomb, 0 no
adjacent bombs, 1-8 the number of adjacent bombs. -/
structure Cell where
  value : Int
  revealed : Bool
  flagged : Bool
deriving Repr, DecidableEq

/-- Cell() with the default arguments of Cell.__init__. -/
def Cell.default : Cell := ⟨0, false, false⟩

/-- Cell.reveal (cell.py lines 35-40): sets revealed and leaves the flagged
field untouched. -/
def Cell.reveal (c : Cell) : Cell := { c with revealed := true }

/-- Cell.flag (cell.py lines 42-48): toggles flagged on unrevealed cells. -/
def Cell.flag (c : Cell) : Cell :=
  if c.revealed then c else { c with flagged := !c.flagged }

/-- The grid model (grid.py, class Grid).  The logger, the asset table and
the difficulty string only feed the presentation layer or the derivation of
the bomb count, so they are not stored; the bomb count is passed explicitly
where the source reads self.num_bombs. -/
structure Grid where
  width : Int
  height : Int
  cells : List (List Cell)
  revealed_count : Nat
deriving Repr, DecidableEq

/-- Grid.__init__ (grid.py lines 15-35): a height-by-width matrix of default
cells and revealed_count = 0.  Python range(n) is empty for n <= 0, which
Int.toNat reproduces; there is no dimension check in the source. -/
def Grid.init (width height : Int) : Grid :=
  { width := width, height := height,
    cells := List.replicate height.toNat (List.replicate width.toNat Cell.default),
    revealed_count := 0 }

/-- In-bounds cell access self.grid[row][col]; the source only performs it
after an explicit bounds check, so the defaults are never reached there. -/
def cellAtN (g : Grid) (row col : Int) : Cell :=
  (g.cells.getD row.toNat []).getD col.toNat Cell.default

/-- In-bounds cell update, modelling mutation of the cell object returned by
get_cell. -/
def setCell (g : Grid) (row col : Int) (c : Cell) : Grid :=
  { g with cells := g.cells.set row.toNat ((g.cells.getD row.toNat []).set col.toNat c) }

/-- Python list indexing: an index in [-len, len) is valid, negative values
wrap around from the end, anything else raises IndexError (none). -/
def pyIdx (n : Nat) (i : Int) : Option Nat :=
  if 0 ≤ i ∧ i < (n : Int) then some i.toNat
  else if -(n : Int) ≤ i ∧ i < 0 then some ((n : Int) + i).toNat
  else none

/-- Grid.get_cell (grid.py lines 114-121): plain Python indexing
self.grid[row][col], with Python wrap-around for negative indices. -/
def getCellPy (g : Grid) (row col : Int) : Option Cell :=
  match pyIdx g.cells.length row with
  | none => none
  | some r =>
    let rowList := g.cells.getD r []
    match pyIdx rowList.length col with
    | none => none
    | some c => some (rowList.getD c Cell.default)

/-- Writing through the cell object obtained by get_cell: same Python index
resolution as getCellPy. -/
def setCellPy (g : Grid) (row col : Int) (cl : Cell) : Option Grid :=
  match pyIdx g.cells.length row with
  | none => none
  | some r =>
    let rowList := g.cells.getD r []
    match pyIdx rowList.length col with
    | none => none
    | some c => some { g with cells := g.cells.set r (rowList.set c cl) }

/-- Well-formedness of the cell matrix: height rows of width cells, as
established by Grid.__init__. -/
def wf (g : Grid) : Prop :=
  g.cells.length = g.height.toNat ∧ ∀ row ∈ g.cells, row.length = g.width.toNat

instance (g : Grid) : Decidable (wf g) := by unfold wf; infer_instance

/-- The nine offsets enumerated by the nested for i in range(-1, 2),
for j in range(-1, 2) loops of the source. -/
def offsets : List (Int × Int) :=
  [(-1, -1), (-1, 0), (-1, 1), (0, -1), (0, 0), (0, 1), (1, -1), (1, 0), (1, 1)]

/-- Grid._count_adjacent_bombs (grid.py lines 78-93): counts value -1 cells
over the 3-by-3 block clipped to the board, the centre included. -/
def countAdjacentBombs (g : Grid) (row col : Int) : Int :=
  offsets.foldl
    (fun count ij =>
      if 0 ≤ row + ij.1 ∧ row + ij.1 < g.height ∧ 0 ≤ col + ij.2 ∧ col + ij.2 < g.width then
        if (cellAtN g (row + ij.1) (col + ij.2)).value = -1 then count + 1 else count
      else count)
    0

/-- The bomb-placement loop of Grid.generate (grid.py lines 128-133).  The
random.sample result is passed in explicitly: a list of distinct positions
drawn from range(width * height), decoded by divmod(position, width). -/
def placeBombs (g : Grid) (bomb_positions : List Nat) : Grid :=
  bomb_positions.foldl
    (fun g1 position =>
      let row := position / g1.width.toNat
      let col := position % g1.width.toNat
      setCell g1 (row : Int) (col : Int) { cellAtN g1 (row : Int) (col : Int) with value := -1 })
    g

/-- The number-generation loop of Grid.generate (grid.py lines 135-141). -/
def computeNumbers (g : Grid) : Grid :=
  (List.range g.height.toNat).foldl
    (fun (g1 : Grid) (row : Nat) =>
      (List.range g.width.toNat).foldl
        (fun (g2 : Grid) (col : Nat) =>
          let cell := cellAtN g2 (row : Int) (col : Int)
          if cell.value = -1 then g2
          else
            setCell g2 (row : Int) (col : Int)
              { cell with value := countAdjacentBombs g2 (row : Int) (col : Int) })
        g1)
    g

/-- Grid.generate (grid.py lines 123-143). -/
def generate (g : Grid) (bomb_positions : List Nat) : Grid :=
  computeNumbers (placeBombs g bomb_positions)

/-- Order on queue entries.  The source stores (math.sqrt(d), row, col)
tuples in a heapq, d being the squared Euclidean distance from the click;
here the first component keeps d itself.  Float sqrt is monotone, so the
minimum under this order is a minimum under the source order; moreover the
final-state theorems below never depend on the pop order, only on the queue
contents (see revealLoop_spec, which only uses popMin_perm). -/
def qle (a b : Nat × Int × Int) : Bool :=
  decide (a.1 < b.1 ∨ (a.1 = b.1 ∧ (a.2.1 < b.2.1 ∨ (a.2.1 = b.2.1 ∧ a.2.2 ≤ b.2.2))))

/-- heappop: remove one minimal element from the queue. -/
def popMin : List (Nat × Int × Int) → Option ((Nat × Int × Int) × List (Nat × Int × Int))
  | [] => none
  | x :: xs =>
    match popMin xs with
    | none => some (x, [])
    | some (m, rest) => if qle x m then some (x, xs) else some (m, x :: rest)

/-- The squared Euclidean distance (new_row - start_row)**2 +
(new_col - start_col)**2 whose square root the source pushes. -/
def sqDist (sr sc r c : Int) : Nat := ((r - sr) ^ 2 + (c - sc) ^ 2).toNat

/-- One iteration of the neighbour loop (logic/game_logic.py lines 71-81),
new_row and new_col inlined, with the operator precedence of the source
condition kept exactly as Python parses it:
((new_row, new_col) not in revealed and i != 0) or j != 0. -/
def pushStep (sr sc row col : Int) (acc : List (Nat × Int × Int) × Finset (Int × Int))
    (ij : Int × Int) : List (Nat × Int × Int) × Finset (Int × Int) :=
  if ((row + ij.1, col + ij.2) ∉ acc.2 ∧ ij.1 ≠ 0) ∨ ij.2 ≠ 0 then
    ((sqDist sr sc (row + ij.1) (col + ij.2), row + ij.1, col + ij.2) :: acc.1,
      insert (row + ij.1, col + ij.2) acc.2)
  else acc

/-- The whole neighbour loop: every offset in source order. -/
def pushNeighbors (sr sc row col : Int) (queue : List (Nat × Int × Int))
    (s : Finset (Int × Int)) : List (Nat × Int × Int) × Finset (Int × Int) :=
  offsets.foldl (pushStep sr sc row col) (queue, s)

/-- The while loop of GameLogic.reveal_cells (logic/game_logic.py lines 45-81).
The fuel argument bounds the number of iterations; the termination theorem
shows the canonical fuel below is never exhausted, so none models only
running out of fuel, which the source loop never does. -/
def revealLoop (sr sc : Int) :
    Nat → Grid → List (Nat × Int × Int) → Finset (Int × Int) → Option Grid
  | 0, _, _, _ => none
  | fuel + 1, g, queue, s =>
    match popMin queue with
    | none => some g
    | some (item, rest) =>
      let row := item.2.1
      let col := item.2.2
      if row < 0 ∨ row ≥ g.height ∨ col < 0 ∨ col ≥ g.width then
        revealLoop sr sc fuel g rest s
      else
        let cell := cellAtN g row col
        if cell.revealed ∨ cell.flagged then
          revealLoop sr sc fuel g rest s
        else
          let g1 := { setCell g row col cell.reveal with revealed_count := g.revealed_count + 1 }
          if cell.value ≠ 0 then
            revealLoop sr sc fuel g1 rest s
          else
            let qs := pushNeighbors sr sc row col rest s
            revealLoop sr sc fuel g1 qs.1 qs.2

/-- Fuel that dominates every possible iteration count of the loop. -/
def fuelBound (g : Grid) : Nat := 10 * (g.height.toNat * g.width.toNat) + 2

/-- GameLogic.reveal_cells (logic/game_logic.py lines 31-81): queue seeded
with (0, start_row, start_col), empty already-enqueued set. -/
def reveal_cells (g : Grid) (start_row start_col : Int) : Option Grid :=
  revealLoop start_row start_col (fuelBound g) g [(0, start_row, start_col)] ∅

/-- GameLogic.flag_cell (logic/game_logic.py lines 83-94): fetch the cell by
Python indexing, toggle its flag when unrevealed. -/
def flag_cell (g : Grid) (row col : Int) : Option Grid :=
  match getCellPy g row col with
  | none => none
  | some cell =>
    if ¬cell.revealed then setCellPy g row col cell.flag
    else some g

/-- MouseEventHandler.click (event_handlers.py lines 28-55).  The boolean is
the return value of the handler: False stops the game loop (bomb hit).
Display and sleep calls are presentation layer.  A button other than 1, 2, 3
falls off the end of the Python function (None, modelled as none). -/
def click (g : Grid) (row col : Int) (button : Nat) : Option (Bool × Grid) :=
  match getCellPy g row col with
  | none => none
  | some cell =>
    if button = 1 then
      if cell.value = -1 ∧ ¬cell.flagged then
        (reveal_cells g row col).map (fun g1 => (false, g1))
      else if cell.value = -1 ∧ cell.flagged then
        some (true, g)
      else
        (reveal_cells g row col).map (fun g1 => (true, g1))
    else if button = 3 then
      (flag_cell g row col).map (fun g1 => (true, g1))
    else if button = 2 then
      some (true, g)
    else none

/-- The TAB branch of KeyEventHandler.key_press (event_handlers.py lines
98-103): Cell.reveal on every cell.  Cell.reveal does not clear the flag. -/
def revealAllCells (g : Grid) : Grid :=
  (List.range g.height.toNat).foldl
    (fun (g1 : Grid) (row : Nat) =>
      (List.range g.width.toNat).foldl
        (fun (g2 : Grid) (col : Nat) =>
          setCell g2 (row : Int) (col : Int) (cellAtN g2 (row : Int) (col : Int)).reveal)
        g1)
    g

/-- The TAB branch of Minesweeper._handle_key_press (game_logic.py lines
454-458), the monolithic variant: writes (value, True, False), clearing the
flag. -/
def revealAllTuple (g : Grid) : Grid :=
  (List.range g.height.toNat).foldl
    (fun (g1 : Grid) (row : Nat) =>
      (List.range g.width.toNat).foldl
        (fun (g2 : Grid) (col : Nat) =>
          let cell := cellAtN g2 (row : Int) (col : Int)
          setCell g2 (row : Int) (col : Int) { cell with revealed := true, flagged := false })
        g1)
    g

/-- The structured outcome the spec attaches to a reveal. -/
inductive RevealOutcome
  | Continuing
  | HitBomb
  | Won
deriving Repr, DecidableEq

/-- The win test of the game loop (game_state.py, play, lines 124-127):
revealed_count == width * height - num_bombs. -/
def winCheck (g : Grid) (num_bombs : Nat) : Bool :=
  decide ((g.revealed_count : Int) = g.width * g.height - (num_bombs : Int))

/-- One primary-button reveal as the game loop observes it: a False return
from click is the game-over path (HitBomb); otherwise the next loop
iteration reports Won exactly when the win test passes. -/
def clickOutcome (g : Grid) (num_bombs : Nat) (row col : Int) :
    Option (RevealOutcome × Grid) :=
  (click g row col 1).map
    (fun bg =>
      if bg.1 = false then (RevealOutcome.HitBomb, bg.2)
      else if winCheck bg.2 num_bombs then (RevealOutcome.Won, bg.2)
      else (RevealOutcome.Continuing, bg.2))

/-- A player move against the engine: primary-click reveal or flag toggle. -/
inductive GameOp
  | reveal (row col : Int)
  | flag (row col : Int)

/-- Apply one move. -/
def applyOp (g : Grid) : GameOp → Option Grid
  | GameOp.reveal r c => reveal_cells g r c
  | GameOp.flag r c => flag_cell g r c

/-- Apply a sequence of moves; none propagates a raised IndexError. -/
def applyOps (g : Grid) : List GameOp → Option Grid
  | [] => some g
  | op :: ops =>
    match applyOp g op with
    | none => none
    | some g1 => applyOps g1 ops

/-! Specification-side notions. -/

/-- A coordinate inside the board. -/
def inB (g : Grid) (p : Int × Int) : Prop :=
  0 ≤ p.1 ∧ p.1 < g.height ∧ 0 ≤ p.2 ∧ p.2 < g.width

instance (g : Grid) (p : Int × Int) : Decidable (inB g p) := by unfold inB; infer_instance

/-- Cell at a coordinate pair. -/
def cellAtP (g : Grid) (p : Int × Int) : Cell := cellAtN g p.1 p.2

/-- A cell the flood fill may reveal when dequeued: in bounds, unrevealed
and unflagged. -/
def Revealable (g : Grid) (p : Int × Int) : Prop :=
  inB g p ∧ (cellAtP g p).revealed = false ∧ (cellAtP g p).flagged = false

instance (g : Grid) (p : Int × Int) : Decidable (Revealable g p) := by
  unfold Revealable; infer_instance

/-- Moore adjacency, exactly the neighbours produced by the offsets loop. -/
def Adj (p q : Int × Int) : Prop :=
  (q.1 - p.1, q.2 - p.2) ∈ offsets ∧ q ≠ p

/-- Reach g q p: starting from a queue containing q, the flood fill reaches
and reveals p, travelling through revealable zero-valued cells. -/
inductive Reach (g : Grid) : Int × Int → Int × Int → Prop
  | refl (p : Int × Int) : Revealable g p → Reach g p p
  | step (q r p : Int × Int) : Revealable g q → (cellAtP g q).value = 0 →
      Adj q r → Reach g r p → Reach g q p

/-- The connected zero-valued region of a start cell. -/
def zeroRegion (g : Grid) (s p : Int × Int) : Prop :=
  Reach g s p ∧ (cellAtP g p).value = 0

/-- The revealable numbered cells bordering that region. -/
def regionBorder (g : Grid) (s p : Int × Int) : Prop :=
  Revealable g p ∧ (cellAtP g p).value ≠ 0 ∧ ∃ q, zeroRegion g s q ∧ Adj q p

/-- The true number of bomb-valued Moore neighbours, clipped at the board
edges (the centre excluded). -/
def mooreBombCount (g : Grid) (row col : Int) : Nat :=
  (offsets.filter fun ij =>
    decide (ij ≠ (0, 0)) &&
    decide (0 ≤ row + ij.1 ∧ row + ij.1 < g.height ∧ 0 ≤ col + ij.2 ∧ col + ij.2 < g.width) &&
    decide ((cellAtN g (row + ij.1) (col + ij.2)).value = -1)).length

/-- The generation invariant: every in-bounds non-bomb cell carries the
exact count of its bomb-valued Moore neighbours. -/
def adjInv (g : Grid) : Prop :=
  ∀ r < g.height.toNat, ∀ c < g.width.toNat,
    (cellAtN g (r : Int) (c : Int)).value ≠ -1 →
    (cellAtN g (r : Int) (c : Int)).value = (mooreBombCount g (r : Int) (c : Int) : Int)

instance (g : Grid) : Decidable (adjInv g) := by unfold adjInv; infer_instance

/-- The in-bounds coordinate space as a finite set. -/
def cellFinset (g : Grid) : Finset (Nat × Nat) :=
  Finset.range g.height.toNat ×ˢ Finset.range g.width.toNat

/-- Number of bomb-valued cells on the board. -/
def bombCount (g : Grid) : Nat :=
  ((cellFinset g).filter (fun rc => (cellAtN g (rc.1 : Int) (rc.2 : Int)).value = -1)).card

/-- Number of cells whose revealed field is true. -/
def revealedCells (g : Grid) : Nat :=
  ((cellFinset g).filter (fun rc => (cellAtN g (rc.1 : Int) (rc.2 : Int)).revealed = true)).card

/-- Number of cells whose revealed field is false. -/
def unrevealedCount (g : Grid) : Nat :=
  ((cellFinset g).filter (fun rc => (cellAtN g (rc.1 : Int) (rc.2 : Int)).revealed = false)).card

/-- Positions stored in a queue. -/
def qpos (q : List (Nat × Int × Int)) : List (Int × Int) := q.map (fun item => item.2)

/-- The loop invariant tying the already-enqueued set to the queue: a
recorded position is still queued or can no longer be revealed. -/
def queueInv (g : Grid) (queue : List (Nat × Int × Int)) (s : Finset (Int × Int)) : Prop :=
  ∀ p ∈ s, p ∈ qpos queue ∨ ¬Revealable g p

end Minesweeper

namespace Minesweeper

/-! Basic facts about Python indexing. -/

theorem pyIdx_lt {n : Nat} {i : Int} {k : Nat} (h : pyIdx n i = some k) : k < n := by
  unfold pyIdx at h
  split at h
  · rename_i h1
    cases h with | refl => omega
  · split at h
    · rename_i h1 h2
      cases h with | refl => omega
    · cases h

theorem pyIdx_of_nonneg {n : Nat} {i : Int} (h0 : 0 ≤ i) (h : i < (n : Int)) :
    pyIdx n i = some i.toNat := by
  unfold pyIdx
  rw [if_pos ⟨h0, h⟩]

theorem pyIdx_eq_none_iff {n : Nat} {i : Int} :
    pyIdx n i = none ↔ (i < -(n : Int) ∨ (n : Int) ≤ i) := by
  unfold pyIdx
  split
  · rename_i h1
    simp only [reduceCtorEq, false_iff]
    omega
  · split
    · rename_i h1 h2
      simp only [reduceCtorEq, false_iff]
      omega
    · rename_i h1 h2
      simp only [true_iff]
      omega

/-! Structural facts about setCell and cellAtN. -/

theorem setCell_width (g : Grid) (r c : Int) (x : Cell) : (setCell g r c x).width = g.width := rfl

theorem setCell_height (g : Grid) (r c : Int) (x : Cell) : (setCell g r c x).height = g.height := rfl

theorem setCell_count (g : Grid) (r c : Int) (x : Cell) :
    (setCell g r c x).revealed_count = g.revealed_count := rfl

theorem row_length {g : Grid} (hwf : wf g) {r : Nat} (hr : r < g.cells.length) :
    (g.cells.getD r []).length = g.width.toNat := by
  rw [List.getD_eq_getElem _ _ hr]
  exact hwf.2 _ (List.getElem_mem hr)

theorem wf_setCell {g : Grid} (hwf : wf g) {r c : Int} (x : Cell)
    (hr : 0 ≤ r ∧ r < g.height) (hc : 0 ≤ c ∧ c < g.width) : wf (setCell g r c x) := by
  have hlen : g.cells.length = g.height.toNat := hwf.1
  constructor
  · show (g.cells.set _ _).length = _
    rw [List.length_set]; exact hwf.1
  · intro row hrow
    rcases List.mem_or_eq_of_mem_set hrow with h | h
    · exact hwf.2 _ h
    · subst h
      show ((g.cells.getD _ []).set _ _).length = _
      rw [List.length_set]
      exact row_length hwf (by omega)

theorem cellAtN_setCell {g : Grid} (hwf : wf g) {r c r' c' : Int} (x : Cell)
    (hr : 0 ≤ r ∧ r < g.height) (hc : 0 ≤ c ∧ c < g.width)
    (hr' : 0 ≤ r' ∧ r' < g.height) (hc' : 0 ≤ c' ∧ c' < g.width) :
    cellAtN (setCell g r c x) r' c' = if r' = r ∧ c' = c then x else cellAtN g r' c' := by
  have hlen : g.cells.length = g.height.toNat := hwf.1
  have hrn : r.toNat < g.cells.length := by omega
  have hrn' : r'.toNat < g.cells.length := by omega
  have hwlen : (g.cells.getD r.toNat []).length = g.width.toNat := row_length hwf hrn
  have hwlen' : (g.cells.getD r'.toNat []).length = g.width.toNat := row_length hwf hrn'
  show (((g.cells.set r.toNat _).getD r'.toNat [])).getD c'.toNat Cell.default = _
  by_cases hrow : r' = r
  · subst hrow
    have hset : (g.cells.set r'.toNat ((g.cells.getD r'.toNat []).set c.toNat x)).getD r'.toNat []
        = (g.cells.getD r'.toNat []).set c.toNat x := by
      rw [List.getD_eq_getElem _ _ (by rw [List.length_set]; exact hrn'),
        List.getElem_set, if_pos rfl]
    rw [hset]
    by_cases hcol : c' = c
    · subst hcol
      rw [if_pos ⟨rfl, rfl⟩]
      rw [List.getD_eq_getElem _ _ (by rw [List.length_set]; omega), List.getElem_set,
        if_pos rfl]
    · rw [if_neg (by tauto)]
      unfold cellAtN
      by_cases hcb : c'.toNat < (g.cells.getD r'.toNat []).length
      · rw [List.getD_eq_getElem _ _ (by rw [List.length_set]; exact hcb),
          List.getElem_set, if_neg (by omega), List.getD_eq_getElem _ _ hcb]
      · rw [List.getD_eq_default _ _ (by rw [List.length_set]; omega),
          List.getD_eq_default _ _ (by omega)]
  · rw [if_neg (by tauto)]
    unfold cellAtN
    have hset : (g.cells.set r.toNat ((g.cells.getD r.toNat []).set c.toNat x)).getD r'.toNat []
        = g.cells.getD r'.toNat [] := by
      rw [List.getD_eq_getElem _ _ (by rw [List.length_set]; exact hrn'),
        List.getElem_set, if_neg (by omega), List.getD_eq_getElem _ _ hrn']
    rw [hset]

theorem getD_replicate_of_lt {α : Type} {n : Nat} (a d : α) {k : Nat} (hk : k < n) :
    (List.replicate n a).getD k d = a := by
  rw [List.getD_eq_getElem _ _ (by simpa using hk)]
  exact List.getElem_replicate ..

theorem cellAtN_init {w h : Int} {r c : Nat} (hr : r < h.toNat) (hc : c < w.toNat) :
    cellAtN (Grid.init w h) (r : Int) (c : Int) = Cell.default := by
  unfold Grid.init cellAtN
  simp only [Int.toNat_natCast]
  rw [getD_replicate_of_lt (List.replicate w.toNat Cell.default) [] hr,
    getD_replicate_of_lt Cell.default Cell.default hc]

theorem wf_init (w h : Int) : wf (Grid.init w h) := by
  constructor
  · simp [Grid.init]
  · intro row hrow
    simp only [Grid.init] at hrow
    rw [List.eq_of_mem_replicate hrow]
    simp [Grid.init]

theorem getCellPy_inB {g : Grid} (hwf : wf g) {row col : Int}
    (hr : 0 ≤ row ∧ row < g.height) (hc : 0 ≤ col ∧ col < g.width) :
    getCellPy g row col = some (cellAtN g row col) := by
  have hlen : g.cells.length = g.height.toNat := hwf.1
  unfold getCellPy
  rw [pyIdx_of_nonneg hr.1 (by omega)]
  have hwl : (g.cells.getD row.toNat []).length = g.width.toNat := row_length hwf (by omega)
  simp only
  rw [hwl, pyIdx_of_nonneg hc.1 (by omega)]
  rfl

/-! popMin returns a permutation split of the queue. -/

theorem popMin_eq_none {q : List (Nat × Int × Int)} (h : popMin q = none) : q = [] := by
  cases q with
  | nil => rfl
  | cons x xs =>
    unfold popMin at h
    cases hx : popMin xs with
    | none => rw [hx] at h; cases h
    | some mr => rw [hx] at h; cases mr; dsimp at h; split at h <;> cases h

theorem popMin_perm {q : List (Nat × Int × Int)} {m : Nat × Int × Int}
    {rest : List (Nat × Int × Int)} (h : popMin q = some (m, rest)) :
    List.Perm q (m :: rest) := by
  induction q generalizing m rest with
  | nil => cases h
  | cons x xs ih =>
    unfold popMin at h
    cases hx : popMin xs with
    | none =>
      rw [hx] at h
      simp only [Option.some.injEq, Prod.mk.injEq] at h
      obtain ⟨rfl, rfl⟩ := h
      rw [popMin_eq_none hx]
    | some mr =>
      rw [hx] at h
      obtain ⟨m', rest'⟩ := mr
      dsimp at h
      split at h
      · simp only [Option.some.injEq, Prod.mk.injEq] at h
        obtain ⟨rfl, rfl⟩ := h
        exact List.Perm.refl _
      · simp only [Option.some.injEq, Prod.mk.injEq] at h
        obtain ⟨rfl, rfl⟩ := h
        exact (List.Perm.cons x (ih hx)).trans (List.Perm.swap m' x rest')

end Minesweeper

namespace Minesweeper

/-- The grid after the reveal branch of one loop iteration: cell.reveal()
followed by revealed_count += 1 (logic/game_logic.py lines 60-64). -/
def revealAt (g : Grid) (m : Int × Int) : Grid :=
  { setCell g m.1 m.2 (cellAtN g m.1 m.2).reveal with revealed_count := g.revealed_count + 1 }

theorem revealAt_width (g : Grid) (m : Int × Int) : (revealAt g m).width = g.width := rfl

theorem revealAt_height (g : Grid) (m : Int × Int) : (revealAt g m).height = g.height := rfl

theorem revealAt_count (g : Grid) (m : Int × Int) :
    (revealAt g m).revealed_count = g.revealed_count + 1 := rfl

theorem wf_revealAt {g : Grid} (hwf : wf g) {m : Int × Int} (hm : inB g m) :
    wf (revealAt g m) := by
  obtain ⟨h1, h2, h3, h4⟩ := hm
  exact wf_setCell hwf _ ⟨h1, h2⟩ ⟨h3, h4⟩

theorem inB_revealAt (g : Grid) (m p : Int × Int) : inB (revealAt g m) p ↔ inB g p := Iff.rfl

theorem cellAtP_revealAt {g : Grid} (hwf : wf g) {m : Int × Int} (hm : inB g m)
    {p : Int × Int} (hp : inB g p) :
    cellAtP (revealAt g m) p = if p = m then (cellAtP g m).reveal else cellAtP g p := by
  obtain ⟨h1, h2, h3, h4⟩ := hm
  obtain ⟨k1, k2, k3, k4⟩ := hp
  show cellAtN _ p.1 p.2 = _
  have := cellAtN_setCell hwf ((cellAtN g m.1 m.2).reveal)
    ⟨h1, h2⟩ ⟨h3, h4⟩ ⟨k1, k2⟩ ⟨k3, k4⟩
  have hcells : cellAtN (revealAt g m) p.1 p.2 = cellAtN (setCell g m.1 m.2 (cellAtN g m.1 m.2).reveal) p.1 p.2 := rfl
  rw [hcells, this]
  by_cases hpm : p = m
  · subst hpm
    rw [if_pos ⟨rfl, rfl⟩, if_pos rfl]
    rfl
  · rw [if_neg ?_, if_neg hpm]
    · rfl
    · intro hcon
      exact hpm (Prod.ext hcon.1 hcon.2)

theorem value_revealAt {g : Grid} (hwf : wf g) {m : Int × Int} (hm : inB g m)
    {p : Int × Int} (hp : inB g p) :
    (cellAtP (revealAt g m) p).value = (cellAtP g p).value ∧
    (cellAtP (revealAt g m) p).flagged = (cellAtP g p).flagged := by
  rw [cellAtP_revealAt hwf hm hp]
  by_cases hpm : p = m
  · subst hpm; rw [if_pos rfl]; exact ⟨rfl, rfl⟩
  · rw [if_neg hpm]; exact ⟨rfl, rfl⟩

theorem revealed_revealAt {g : Grid} (hwf : wf g) {m : Int × Int} (hm : inB g m)
    {p : Int × Int} (hp : inB g p) :
    ((cellAtP (revealAt g m) p).revealed = true ↔ (cellAtP g p).revealed = true ∨ p = m) := by
  rw [cellAtP_revealAt hwf hm hp]
  by_cases hpm : p = m
  · subst hpm; rw [if_pos rfl]; simp [Cell.reveal]
  · rw [if_neg hpm]; simp [hpm]

theorem revealable_revealAt {g : Grid} (hwf : wf g) {m : Int × Int} (hm : inB g m)
    (p : Int × Int) :
    (Revealable (revealAt g m) p ↔ Revealable g p ∧ p ≠ m) := by
  by_cases hp : inB g p
  · unfold Revealable
    rw [inB_revealAt]
    rw [cellAtP_revealAt hwf hm hp]
    by_cases hpm : p = m
    · subst hpm
      rw [if_pos rfl]
      simp [Cell.reveal]
    · rw [if_neg hpm]
      simp [hpm, hp]
  · unfold Revealable
    rw [inB_revealAt]
    simp [hp]

/-! Counting revealed cells. -/

theorem card_cellFinset (g : Grid) : (cellFinset g).card = g.height.toNat * g.width.toNat := by
  simp [cellFinset]

theorem mem_cellFinset {g : Grid} {rc : Nat × Nat} :
    rc ∈ cellFinset g ↔ rc.1 < g.height.toNat ∧ rc.2 < g.width.toNat := by
  unfold cellFinset
  rw [Finset.mem_product]
  simp

theorem revealedCells_add_unrevealed (g : Grid) :
    revealedCells g + unrevealedCount g = (cellFinset g).card := by
  unfold revealedCells unrevealedCount
  have hset : (cellFinset g).filter (fun rc => (cellAtN g (rc.1 : Int) (rc.2 : Int)).revealed = false)
      = (cellFinset g).filter (fun rc => ¬(cellAtN g (rc.1 : Int) (rc.2 : Int)).revealed = true) := by
    apply Finset.filter_congr
    intro rc _
    simp [Bool.not_eq_true]
  rw [hset]
  exact Finset.filter_card_add_filter_neg_card_eq_card _

theorem revealedCells_revealAt {g : Grid} (hwf : wf g) {m : Int × Int} (hm : inB g m)
    (hold : (cellAtP g m).revealed = false) :
    revealedCells (revealAt g m) = revealedCells g + 1 := by
  classical
  obtain ⟨h1, h2, h3, h4⟩ := hm
  have hdim : cellFinset (revealAt g m) = cellFinset g := rfl
  set mN : Nat × Nat := (m.1.toNat, m.2.toNat) with hmN
  have hmmem : mN ∈ cellFinset g := by
    rw [mem_cellFinset]
    constructor <;> [skip; skip] <;> simp [hmN] <;> omega
  have hcast : ((mN.1 : Int), (mN.2 : Int)) = m := by
    apply Prod.ext <;> simp [hmN] <;> omega
  unfold revealedCells
  rw [hdim]
  have hpt : ∀ rc ∈ cellFinset g,
      ((cellAtN (revealAt g m) (rc.1 : Int) (rc.2 : Int)).revealed = true ↔
        ((cellAtN g (rc.1 : Int) (rc.2 : Int)).revealed = true ∨ rc = mN)) := by
    intro rc hrc
    rw [mem_cellFinset] at hrc
    have hrcB : inB g ((rc.1 : Int), (rc.2 : Int)) := by
      unfold inB; constructor; · omega
      constructor; · omega
      constructor; · omega
      · omega
    have := revealed_revealAt hwf ⟨h1, h2, h3, h4⟩ hrcB
    unfold cellAtP at this
    rw [this]
    constructor
    · rintro (h | h)
      · exact Or.inl h
      · refine Or.inr ?_
        have e1 : (rc.1 : Int) = m.1 := congrArg Prod.fst h
        have e2 : (rc.2 : Int) = m.2 := congrArg Prod.snd h
        apply Prod.ext <;> simp [hmN] <;> omega
    · rintro (h | h)
      · exact Or.inl h
      · subst h
        rw [hcast]
        exact Or.inr rfl
  rw [Finset.filter_congr hpt, Finset.filter_or, Finset.filter_eq', if_pos hmmem]
  have hnot : mN ∉ (cellFinset g).filter
      (fun rc => (cellAtN g (rc.1 : Int) (rc.2 : Int)).revealed = true) := by
    rw [Finset.mem_filter]
    rintro ⟨-, hcon⟩
    have : (cellAtP g m).revealed = true := by
      unfold cellAtP
      rw [← hcast] at *
      exact hcon
    rw [hold] at this
    cases this
  rw [Finset.card_union_of_disjoint (by simpa using hnot)]
  rfl

end Minesweeper

namespace Minesweeper

/-! Facts about Reach. -/

theorem reach_src {g : Grid} {q p : Int × Int} (h : Reach g q p) : Revealable g q := by
  cases h with
  | refl _ hp => exact hp
  | step _ _ _ hq _ _ _ => exact hq

theorem reach_tgt {g : Grid} {q p : Int × Int} (h : Reach g q p) : Revealable g p := by
  induction h with
  | refl _ hp => exact hp
  | step _ _ _ _ _ _ _ ih => exact ih

theorem reach_of_revealAt {g : Grid} (hwf : wf g) {m : Int × Int} (hm : inB g m)
    {q p : Int × Int} (h : Reach (revealAt g m) q p) : Reach g q p := by
  induction h with
  | refl p hp => exact Reach.refl p ((revealable_revealAt hwf hm p).mp hp).1
  | step q r p hq hv hadj _ ih =>
    have hq' := (revealable_revealAt hwf hm q).mp hq
    refine Reach.step q r p hq'.1 ?_ hadj ih
    rw [← (value_revealAt hwf hm hq'.1.1).1]
    exact hv

theorem reach_revealAt_nonzero {g : Grid} (hwf : wf g) {m : Int × Int}
    (hmr : Revealable g m) (hval : (cellAtP g m).value ≠ 0)
    {q p : Int × Int} (h : Reach g q p) : p = m ∨ Reach (revealAt g m) q p := by
  induction h with
  | refl p hp =>
    by_cases hpm : p = m
    · exact Or.inl hpm
    · exact Or.inr (Reach.refl p ((revealable_revealAt hwf hmr.1 p).mpr ⟨hp, hpm⟩))
  | step q r p hq hv hadj _ ih =>
    rcases ih with h | h
    · exact Or.inl h
    · have hqm : q ≠ m := fun hcon => hval (hcon ▸ hv)
      refine Or.inr (Reach.step q r p ((revealable_revealAt hwf hmr.1 q).mpr ⟨hq, hqm⟩) ?_ hadj h)
      rw [(value_revealAt hwf hmr.1 hq.1).1]
      exact hv

theorem reach_revealAt_zero {g : Grid} (hwf : wf g) {m : Int × Int}
    (hmr : Revealable g m) {q p : Int × Int} (h : Reach g q p) :
    p = m ∨ Reach (revealAt g m) q p ∨ ∃ n, Adj m n ∧ Reach (revealAt g m) n p := by
  induction h with
  | refl p hp =>
    by_cases hpm : p = m
    · exact Or.inl hpm
    · exact Or.inr (Or.inl (Reach.refl p ((revealable_revealAt hwf hmr.1 p).mpr ⟨hp, hpm⟩)))
  | step q r p hq hv hadj _ ih =>
    rcases ih with h | h | h
    · exact Or.inl h
    · by_cases hqm : q = m
      · subst hqm
        exact Or.inr (Or.inr ⟨r, hadj, h⟩)
      · refine Or.inr (Or.inl (Reach.step q r p ((revealable_revealAt hwf hmr.1 q).mpr ⟨hq, hqm⟩) ?_ hadj h))
        rw [(value_revealAt hwf hmr.1 hq.1).1]
        exact hv
    · exact Or.inr (Or.inr h)

theorem reach_last {g : Grid} {q p : Int × Int} (h : Reach g q p) :
    p = q ∨ ∃ t, Revealable g t ∧ (cellAtP g t).value = 0 ∧ Adj t p := by
  induction h with
  | refl _ _ => exact Or.inl rfl
  | step q r p hq hv hadj _ ih =>
    rcases ih with rfl | h
    · exact Or.inr ⟨q, hq, hv, hadj⟩
    · exact Or.inr h

theorem reach_aux {g : Grid} {q p : Int × Int} (h : Reach g q p) :
    (cellAtP g q).value = 0 →
    ((cellAtP g p).value = 0 ∨ ∃ t, Reach g q t ∧ (cellAtP g t).value = 0 ∧ Adj t p) := by
  induction h with
  | refl _ _ => intro h0; exact Or.inl h0
  | step q r p hq hv hadj hsub ih =>
    intro _
    by_cases hr0 : (cellAtP g r).value = 0
    · rcases ih hr0 with h | ⟨t, ht, ht0, htp⟩
      · exact Or.inl h
      · exact Or.inr ⟨t, Reach.step q r t hq hv hadj ht, ht0, htp⟩
    · cases hsub with
      | refl _ hp => exact Or.inr ⟨q, Reach.refl q hq, hv, hadj⟩
      | step _ r' _ hr hv' _ _ => exact absurd hv' hr0

theorem reach_snoc {g : Grid} {s q p : Int × Int} (h : Reach g s q) :
    (cellAtP g q).value = 0 → Adj q p → Revealable g p → Reach g s p := by
  induction h with
  | refl q hq =>
    intro h0 hadj hp
    exact Reach.step q p p hq h0 hadj (Reach.refl p hp)
  | step a r b ha hv hab _ ih =>
    intro h0 hadj hp
    exact Reach.step a r p ha hv hab (ih h0 hadj hp)

theorem reach_iff_region {g : Grid} {s : Int × Int} (h0 : (cellAtP g s).value = 0)
    (p : Int × Int) : Reach g s p ↔ zeroRegion g s p ∨ regionBorder g s p := by
  constructor
  · intro h
    by_cases hp0 : (cellAtP g p).value = 0
    · exact Or.inl ⟨h, hp0⟩
    · rcases reach_aux h h0 with h' | ⟨t, ht, ht0, htp⟩
      · exact absurd h' hp0
      · exact Or.inr ⟨reach_tgt h, hp0, t, ⟨ht, ht0⟩, htp⟩
  · rintro (⟨h, _⟩ | ⟨hrev, _, t, ⟨ht, ht0⟩, htp⟩)
    · exact h
    · exact reach_snoc ht ht0 htp hrev

/-! Facts about the queue and the neighbour pushes. -/

theorem mem_qpos {p : Int × Int} {q : List (Nat × Int × Int)} :
    p ∈ qpos q ↔ ∃ item ∈ q, item.2 = p := by
  simp [qpos]

theorem qpos_perm {q : List (Nat × Int × Int)} {m : Nat × Int × Int}
    {rest : List (Nat × Int × Int)} (h : popMin q = some (m, rest)) (p : Int × Int) :
    p ∈ qpos q ↔ p = m.2 ∨ p ∈ qpos rest := by
  have hp := (popMin_perm h).map (fun item => item.2)
  rw [show qpos q = q.map (fun item => item.2) from rfl, hp.mem_iff]
  simp [qpos, eq_comm]

theorem push_mono (sr sc row col : Int) :
    ∀ (L : List (Int × Int)) (acc : List (Nat × Int × Int) × Finset (Int × Int))
      (x : Nat × Int × Int), x ∈ acc.1 → x ∈ (L.foldl (pushStep sr sc row col) acc).1 := by
  intro L
  induction L with
  | nil => intro acc x hx; exact hx
  | cons ij L ih =>
    intro acc x hx
    apply ih
    unfold pushStep
    split
    · exact List.mem_cons_of_mem _ hx
    · exact hx

theorem push_items (sr sc row col : Int) :
    ∀ (L : List (Int × Int)) (acc : List (Nat × Int × Int) × Finset (Int × Int))
      (x : Nat × Int × Int), x ∈ (L.foldl (pushStep sr sc row col) acc).1 →
      x ∈ acc.1 ∨ ∃ ij ∈ L, ij ≠ ((0 : Int), (0 : Int)) ∧
        x = (sqDist sr sc (row + ij.1) (col + ij.2), row + ij.1, col + ij.2) := by
  intro L
  induction L with
  | nil => intro acc x hx; exact Or.inl hx
  | cons ij L ih =>
    intro acc x hx
    rcases ih (pushStep sr sc row col acc ij) x hx with h | ⟨ij', hij', hne, hx'⟩
    · unfold pushStep at h
      split at h
      · rename_i hcond
        rcases List.mem_cons.mp h with h' | h'
        · refine Or.inr ⟨ij, List.mem_cons_self .., ?_, h'⟩
          rintro rfl
          simp at hcond
        · exact Or.inl h'
      · exact Or.inl h
    · exact Or.inr ⟨ij', List.mem_cons_of_mem _ hij', hne, hx'⟩

theorem push_enq (sr sc row col : Int) :
    ∀ (L : List (Int × Int)) (acc : List (Nat × Int × Int) × Finset (Int × Int))
      (p : Int × Int), p ∈ (L.foldl (pushStep sr sc row col) acc).2 →
      p ∈ acc.2 ∨ p ∈ qpos (L.foldl (pushStep sr sc row col) acc).1 := by
  intro L
  induction L with
  | nil => intro acc p hp; exact Or.inl hp
  | cons ij L ih =>
    intro acc p hp
    rcases ih (pushStep sr sc row col acc ij) p hp with h | h
    · unfold pushStep at h
      split at h
      · rcases Finset.mem_insert.mp h with h' | h'
        · subst h'
          refine Or.inr (mem_qpos.mpr ⟨(sqDist sr sc (row + ij.1) (col + ij.2), row + ij.1, col + ij.2), ?_, rfl⟩)
          rw [List.foldl_cons]
          apply push_mono
          unfold pushStep
          rename_i hcond
          rw [if_pos hcond]
          exact List.mem_cons_self ..
        · exact Or.inl h'
      · exact Or.inl h
    · exact Or.inr h

theorem push_complete (sr sc row col : Int) :
    ∀ (L : List (Int × Int)) (acc : List (Nat × Int × Int) × Finset (Int × Int))
      (ij : Int × Int), ij ∈ L → ij ≠ ((0 : Int), (0 : Int)) →
      ((row + ij.1, col + ij.2) ∈ qpos (L.foldl (pushStep sr sc row col) acc).1 ∨
        (row + ij.1, col + ij.2) ∈ acc.2) := by
  intro L
  induction L with
  | nil => intro acc ij hmem; cases hmem
  | cons ij0 L ih =>
    intro acc ij hmem hne
    rcases List.mem_cons.mp hmem with rfl | hmem'
    · by_cases hcond : (((row + ij.1, col + ij.2) ∉ acc.2 ∧ ij.1 ≠ 0) ∨ ij.2 ≠ 0)
      · refine Or.inl (mem_qpos.mpr ⟨(sqDist sr sc (row + ij.1) (col + ij.2), row + ij.1, col + ij.2), ?_, rfl⟩)
        rw [List.foldl_cons]
        apply push_mono
        unfold pushStep
        rw [if_pos hcond]
        exact List.mem_cons_self ..
      · push_neg at hcond
        obtain ⟨h1, h2⟩ := hcond
        have hi : ij.1 ≠ 0 := by
          intro hcon
          apply hne
          apply Prod.ext
          · exact hcon
          · exact h2
        refine Or.inr ?_
        by_contra hmem2
        exact hi (h1 hmem2)
    · rcases ih (pushStep sr sc row col acc ij0) ij hmem' hne with h | h
      · exact Or.inl h
      · unfold pushStep at h
        split at h
        · rcases Finset.mem_insert.mp h with h' | h'
          · refine Or.inl (mem_qpos.mpr ⟨(sqDist sr sc (row + ij0.1) (col + ij0.2), row + ij0.1, col + ij0.2), ?_, by rw [h']⟩)
            rw [List.foldl_cons]
            apply push_mono
            unfold pushStep
            rename_i hcond
            rw [if_pos hcond]
            exact List.mem_cons_self ..
          · exact Or.inr h'
        · exact Or.inr h

theorem push_length (sr sc row col : Int) :
    ∀ (L : List (Int × Int)) (acc : List (Nat × Int × Int) × Finset (Int × Int)),
      (L.foldl (pushStep sr sc row col) acc).1.length ≤ acc.1.length + L.length := by
  intro L
  induction L with
  | nil => intro acc; simp
  | cons ij L ih =>
    intro acc
    refine le_trans (ih (pushStep sr sc row col acc ij)) ?_
    unfold pushStep
    split
    · simp only [List.length_cons, List.length_cons]
      omega
    · simp only [List.length_cons]
      omega

end Minesweeper

namespace Minesweeper

attribute [irreducible] pushStep

theorem pushN_mono (sr sc row col : Int) (queue : List (Nat × Int × Int))
    (s : Finset (Int × Int)) (x : Nat × Int × Int) (hx : x ∈ queue) :
    x ∈ (pushNeighbors sr sc row col queue s).1 := by
  unfold pushNeighbors
  exact push_mono sr sc row col offsets (queue, s) x hx

theorem pushN_items (sr sc row col : Int) (queue : List (Nat × Int × Int))
    (s : Finset (Int × Int)) (x : Nat × Int × Int)
    (hx : x ∈ (pushNeighbors sr sc row col queue s).1) :
    x ∈ queue ∨ ∃ ij ∈ offsets, ij ≠ ((0 : Int), (0 : Int)) ∧
      x = (sqDist sr sc (row + ij.1) (col + ij.2), row + ij.1, col + ij.2) := by
  unfold pushNeighbors at hx
  exact push_items sr sc row col offsets (queue, s) x hx

theorem pushN_enq (sr sc row col : Int) (queue : List (Nat × Int × Int))
    (s : Finset (Int × Int)) (p : Int × Int)
    (hp : p ∈ (pushNeighbors sr sc row col queue s).2) :
    p ∈ s ∨ p ∈ qpos (pushNeighbors sr sc row col queue s).1 := by
  unfold pushNeighbors at hp ⊢
  exact push_enq sr sc row col offsets (queue, s) p hp

theorem pushN_complete (sr sc row col : Int) (queue : List (Nat × Int × Int))
    (s : Finset (Int × Int)) (ij : Int × Int) (hij : ij ∈ offsets)
    (hne : ij ≠ ((0 : Int), (0 : Int))) :
    (row + ij.1, col + ij.2) ∈ qpos (pushNeighbors sr sc row col queue s).1 ∨
      (row + ij.1, col + ij.2) ∈ s := by
  unfold pushNeighbors
  exact push_complete sr sc row col offsets (queue, s) ij hij hne

theorem pushN_length (sr sc row col : Int) (queue : List (Nat × Int × Int))
    (s : Finset (Int × Int)) :
    (pushNeighbors sr sc row col queue s).1.length ≤ queue.length + 9 := by
  unfold pushNeighbors
  have h := push_length sr sc row col offsets (queue, s)
  simpa using h

theorem revealLoop_succ (sr sc : Int) (fuel : Nat) (g : Grid)
    (queue : List (Nat × Int × Int)) (s : Finset (Int × Int)) :
    revealLoop sr sc (fuel + 1) g queue s =
      match popMin queue with
      | none => some g
      | some (item, rest) =>
        if item.2.1 < 0 ∨ item.2.1 ≥ g.height ∨ item.2.2 < 0 ∨ item.2.2 ≥ g.width then
          revealLoop sr sc fuel g rest s
        else if (cellAtN g item.2.1 item.2.2).revealed ∨ (cellAtN g item.2.1 item.2.2).flagged then
          revealLoop sr sc fuel g rest s
        else if (cellAtN g item.2.1 item.2.2).value ≠ 0 then
          revealLoop sr sc fuel (revealAt g item.2) rest s
        else
          revealLoop sr sc fuel (revealAt g item.2)
            (pushNeighbors sr sc item.2.1 item.2.2 rest s).1
            (pushNeighbors sr sc item.2.1 item.2.2 rest s).2 := rfl

set_option maxHeartbeats 1600000 in
/-- Master characterization of the flood-fill loop: when queueInv links the
already-enqueued set to the queue, the loop terminates with the shape and the
values and flags of every cell preserved, the revealed cells extended exactly
by the cells reachable from the queue, and revealed_count advanced by exactly
the number of newly revealed cells. -/
theorem revealLoop_spec (sr sc : Int) :
    ∀ (fuel : Nat) (g : Grid) (queue : List (Nat × Int × Int)) (s : Finset (Int × Int)) (g' : Grid),
      wf g → queueInv g queue s →
      revealLoop sr sc fuel g queue s = some g' →
      wf g' ∧ g'.width = g.width ∧ g'.height = g.height ∧
      (∀ p, inB g p → (cellAtP g' p).value = (cellAtP g p).value ∧
        (cellAtP g' p).flagged = (cellAtP g p).flagged) ∧
      (∀ p, inB g p → ((cellAtP g' p).revealed = true ↔
        (cellAtP g p).revealed = true ∨ ∃ q ∈ qpos queue, Reach g q p)) ∧
      g'.revealed_count + revealedCells g = g.revealed_count + revealedCells g' := by
  intro fuel
  induction fuel with
  | zero =>
    intro g queue s g' _ _ h
    cases h
  | succ fuel ih =>
    intro g queue s g' hwf hqi hrun
    rw [revealLoop_succ] at hrun
    cases hpop : popMin queue with
    | none =>
      rw [hpop] at hrun
      have hg : g = g' := by
        change some g = some g' at hrun
        cases hrun
        rfl
      subst hg
      refine ⟨hwf, rfl, rfl, fun p _ => ⟨rfl, rfl⟩, ?_, by omega⟩
      intro p hp
      rw [popMin_eq_none hpop]
      simp [qpos]
    | some mr =>
      obtain ⟨item, rest⟩ := mr
      obtain ⟨dst, m⟩ := item
      rw [hpop] at hrun
      change (if m.1 < 0 ∨ m.1 ≥ g.height ∨ m.2 < 0 ∨ m.2 ≥ g.width then
          revealLoop sr sc fuel g rest s
        else if (cellAtN g m.1 m.2).revealed ∨ (cellAtN g m.1 m.2).flagged then
          revealLoop sr sc fuel g rest s
        else if (cellAtN g m.1 m.2).value ≠ 0 then
          revealLoop sr sc fuel (revealAt g m) rest s
        else
          revealLoop sr sc fuel (revealAt g m)
            (pushNeighbors sr sc m.1 m.2 rest s).1
            (pushNeighbors sr sc m.1 m.2 rest s).2) = some g' at hrun
      have hqpos : ∀ p, p ∈ qpos queue ↔ p = m ∨ p ∈ qpos rest := fun p =>
        qpos_perm hpop p
      by_cases hOOB : m.1 < 0 ∨ m.1 ≥ g.height ∨ m.2 < 0 ∨ m.2 ≥ g.width
      · rw [if_pos hOOB] at hrun
        have hnotrev : ¬Revealable g m := by
          rintro ⟨hin, -, -⟩
          unfold inB at hin
          omega
        have hqi' : queueInv g rest s := by
          intro p hp
          rcases hqi p hp with hq | hq
          · rcases (hqpos p).mp hq with rfl | hq'
            · exact Or.inr hnotrev
            · exact Or.inl hq'
          · exact Or.inr hq
        obtain ⟨hwf', hW, hH, hpt, hrev, hcnt⟩ := ih g rest s g' hwf hqi' hrun
        refine ⟨hwf', hW, hH, hpt, ?_, hcnt⟩
        intro p hp
        rw [hrev p hp]
        constructor
        · rintro (h | ⟨q, hq, hr⟩)
          · exact Or.inl h
          · exact Or.inr ⟨q, (hqpos q).mpr (Or.inr hq), hr⟩
        · rintro (h | ⟨q, hq, hr⟩)
          · exact Or.inl h
          · rcases (hqpos q).mp hq with rfl | hq'
            · exact absurd (reach_src hr) hnotrev
            · exact Or.inr ⟨q, hq', hr⟩
      · rw [if_neg hOOB] at hrun
        have hmB : inB g m := by
          unfold inB
          omega
        by_cases hrf : (cellAtN g m.1 m.2).revealed ∨ (cellAtN g m.1 m.2).flagged
        · rw [if_pos hrf] at hrun
          have hnotrev : ¬Revealable g m := by
            rintro ⟨-, h1, h2⟩
            unfold cellAtP at h1 h2
            rcases hrf with h | h
            · rw [h1] at h; cases h
            · rw [h2] at h; cases h
          have hqi' : queueInv g rest s := by
            intro p hp
            rcases hqi p hp with hq | hq
            · rcases (hqpos p).mp hq with rfl | hq'
              · exact Or.inr hnotrev
              · exact Or.inl hq'
            · exact Or.inr hq
          obtain ⟨hwf', hW, hH, hpt, hrev, hcnt⟩ := ih g rest s g' hwf hqi' hrun
          refine ⟨hwf', hW, hH, hpt, ?_, hcnt⟩
          intro p hp
          rw [hrev p hp]
          constructor
          · rintro (h | ⟨q, hq, hr⟩)
            · exact Or.inl h
            · exact Or.inr ⟨q, (hqpos q).mpr (Or.inr hq), hr⟩
          · rintro (h | ⟨q, hq, hr⟩)
            · exact Or.inl h
            · rcases (hqpos q).mp hq with rfl | hq'
              · exact absurd (reach_src hr) hnotrev
              · exact Or.inr ⟨q, hq', hr⟩
        · rw [if_neg hrf] at hrun
          push_neg at hrf
          have hmr : Revealable g m := by
            refine ⟨hmB, ?_, ?_⟩
            · unfold cellAtP
              exact Bool.eq_false_iff.mpr hrf.1
            · unfold cellAtP
              exact Bool.eq_false_iff.mpr hrf.2
          have hwf1 : wf (revealAt g m) := wf_revealAt hwf hmB
          have hnotrev1 : ¬Revealable (revealAt g m) m := by
            rw [revealable_revealAt hwf hmB m]
            rintro ⟨-, hcon⟩
            exact hcon rfl
          by_cases hval : (cellAtN g m.1 m.2).value ≠ 0
          · rw [if_pos hval] at hrun
            have hqi1 : queueInv (revealAt g m) rest s := by
              intro p hp
              rcases hqi p hp with hq | hq
              · rcases (hqpos p).mp hq with rfl | hq'
                · exact Or.inr hnotrev1
                · exact Or.inl hq'
              · refine Or.inr ?_
                intro hcon
                exact hq ((revealable_revealAt hwf hmB p).mp hcon).1
            obtain ⟨hwf', hW, hH, hpt, hrev, hcnt⟩ := ih (revealAt g m) rest s g' hwf1 hqi1 hrun
            refine ⟨hwf', hW, hH, ?_, ?_, ?_⟩
            · intro p hp
              obtain ⟨h1, h2⟩ := hpt p hp
              obtain ⟨h3, h4⟩ := value_revealAt hwf hmB hp
              exact ⟨h1.trans h3, h2.trans h4⟩
            · intro p hp
              rw [hrev p hp]
              rw [revealed_revealAt hwf hmB hp]
              constructor
              · rintro ((h | rfl) | ⟨q, hq, hr⟩)
                · exact Or.inl h
                · exact Or.inr ⟨p, (hqpos p).mpr (Or.inl rfl), Reach.refl p hmr⟩
                · exact Or.inr ⟨q, (hqpos q).mpr (Or.inr hq),
                    reach_of_revealAt hwf hmB hr⟩
              · rintro (h | ⟨q, hq, hr⟩)
                · exact Or.inl (Or.inl h)
                · rcases reach_revealAt_nonzero hwf hmr hval hr with rfl | hr1
                  · exact Or.inl (Or.inr rfl)
                  · rcases (hqpos q).mp hq with rfl | hq'
                    · exact absurd (reach_src hr1) hnotrev1
                    · exact Or.inr ⟨q, hq', hr1⟩
            · have h1 : (revealAt g m).revealed_count = g.revealed_count + 1 := rfl
              have h2 : revealedCells (revealAt g m) = revealedCells g + 1 :=
                revealedCells_revealAt hwf hmB hmr.2.1
              omega
          · rw [if_neg hval] at hrun
            push_neg at hval
            have hval' : (cellAtP g m).value = 0 := hval
            have hqi1 : queueInv (revealAt g m)
                (pushNeighbors sr sc m.1 m.2 rest s).1
                (pushNeighbors sr sc m.1 m.2 rest s).2 := by
              intro p hp
              rcases pushN_enq sr sc m.1 m.2 rest s p hp with hps | hpq
              · rcases hqi p hps with hq | hq
                · rcases (hqpos p).mp hq with rfl | hq'
                  · exact Or.inr hnotrev1
                  · refine Or.inl ?_
                    obtain ⟨it, hit, hitp⟩ := mem_qpos.mp hq'
                    exact mem_qpos.mpr ⟨it, pushN_mono sr sc m.1 m.2 rest s it hit, hitp⟩
                · refine Or.inr ?_
                  intro hcon
                  exact hq ((revealable_revealAt hwf hmB p).mp hcon).1
              · exact Or.inl hpq
            obtain ⟨hwf', hW, hH, hpt, hrev, hcnt⟩ :=
              ih (revealAt g m) _ _ g' hwf1 hqi1 hrun
            refine ⟨hwf', hW, hH, ?_, ?_, ?_⟩
            · intro p hp
              obtain ⟨h1, h2⟩ := hpt p hp
              obtain ⟨h3, h4⟩ := value_revealAt hwf hmB hp
              exact ⟨h1.trans h3, h2.trans h4⟩
            · intro p hp
              rw [hrev p hp]
              rw [revealed_revealAt hwf hmB hp]
              constructor
              · rintro ((h | rfl) | ⟨q, hq, hr⟩)
                · exact Or.inl h
                · exact Or.inr ⟨p, (hqpos p).mpr (Or.inl rfl), Reach.refl p hmr⟩
                · obtain ⟨it, hit, hitp⟩ := mem_qpos.mp hq
                  have hreach : Reach g q p := reach_of_revealAt hwf hmB hr
                  rcases pushN_items sr sc m.1 m.2 rest s it hit with h' | ⟨ij, hij, hijne, hitval⟩
                  · exact Or.inr ⟨q, (hqpos q).mpr (Or.inr (mem_qpos.mpr ⟨it, h', hitp⟩)), hreach⟩
                  · have hqval : q = (m.1 + ij.1, m.2 + ij.2) := by
                      rw [← hitp, hitval]
                    have hadj : Adj m q := by
                      constructor
                      · rw [hqval]
                        have : (m.1 + ij.1 - m.1, m.2 + ij.2 - m.2) = ij := by
                          apply Prod.ext <;> dsimp <;> ring
                        rw [this]
                        exact hij
                      · rw [hqval]
                        intro hcon
                        apply hijne
                        have e1 : m.1 + ij.1 = m.1 := congrArg Prod.fst hcon
                        have e2 : m.2 + ij.2 = m.2 := congrArg Prod.snd hcon
                        apply Prod.ext <;> dsimp <;> omega
                    exact Or.inr ⟨m, (hqpos m).mpr (Or.inl rfl),
                      Reach.step m q p hmr hval' hadj hreach⟩
              · rintro (h | ⟨q, hq, hr⟩)
                · exact Or.inl (Or.inl h)
                · rcases reach_revealAt_zero hwf hmr hr with rfl | hr1 | ⟨n, hadj, hrn⟩
                  · exact Or.inl (Or.inr rfl)
                  · rcases (hqpos q).mp hq with rfl | hq'
                    · exact absurd (reach_src hr1) hnotrev1
                    · refine Or.inr ⟨q, ?_, hr1⟩
                      obtain ⟨it, hit, hitp⟩ := mem_qpos.mp hq'
                      exact mem_qpos.mpr ⟨it, pushN_mono sr sc m.1 m.2 rest s it hit, hitp⟩
                  · have hnrev1 : Revealable (revealAt g m) n := reach_src hrn
                    have hnrev : Revealable g n ∧ n ≠ m :=
                      (revealable_revealAt hwf hmB n).mp hnrev1
                    obtain ⟨hij, hnm⟩ := hadj
                    have hnval : n = (m.1 + (n.1 - m.1, n.2 - m.2).1, m.2 + (n.1 - m.1, n.2 - m.2).2) := by
                      apply Prod.ext <;> dsimp <;> ring
                    have hijne : (n.1 - m.1, n.2 - m.2) ≠ ((0 : Int), (0 : Int)) := by
                      intro hcon
                      apply hnm
                      have e1 : n.1 - m.1 = 0 := congrArg Prod.fst hcon
                      have e2 : n.2 - m.2 = 0 := congrArg Prod.snd hcon
                      apply Prod.ext <;> dsimp <;> omega
                    rcases pushN_complete sr sc m.1 m.2 rest s _ hij hijne with hin | hins
                    · refine Or.inr ⟨n, ?_, hrn⟩
                      rw [hnval]
                      exact hin
                    · have hins' : n ∈ s := by rw [hnval]; exact hins
                      rcases hqi n hins' with hq' | hq'
                      · rcases (hqpos n).mp hq' with rfl | hq''
                        · exact absurd rfl hnrev.2
                        · refine Or.inr ⟨n, ?_, hrn⟩
                          obtain ⟨it, hit, hitp⟩ := mem_qpos.mp hq''
                          exact mem_qpos.mpr ⟨it, pushN_mono sr sc m.1 m.2 rest s it hit, hitp⟩
                      · exact absurd hnrev.1 hq'
            · have h1 : (revealAt g m).revealed_count = g.revealed_count + 1 := rfl
              have h2 : revealedCells (revealAt g m) = revealedCells g + 1 :=
                revealedCells_revealAt hwf hmB hmr.2.1
              omega

end Minesweeper

namespace Minesweeper

theorem unrevealedCount_revealAt {g : Grid} (hwf : wf g) {m : Int × Int} (hm : inB g m)
    (hun : (cellAtP g m).revealed = false) :
    unrevealedCount g = unrevealedCount (revealAt g m) + 1 := by
  have h1 := revealedCells_add_unrevealed g
  have h2 := revealedCells_add_unrevealed (revealAt g m)
  have h3 := revealedCells_revealAt hwf hm hun
  have h4 : (cellFinset (revealAt g m)).card = (cellFinset g).card := rfl
  omega

/-- The loop always terminates within a fuel bounded by the board area: each
iteration pops one item and pushes at most nine, and pushes only happen when
an unrevealed cell just became revealed. -/
theorem revealLoop_terminates (sr sc : Int) :
    ∀ (fuel : Nat) (g : Grid) (queue : List (Nat × Int × Int)) (s : Finset (Int × Int)),
      wf g → 10 * unrevealedCount g + queue.length < fuel →
      (revealLoop sr sc fuel g queue s).isSome := by
  intro fuel
  induction fuel with
  | zero =>
    intro g queue s _ h
    omega
  | succ fuel ih =>
    intro g queue s hwf hfuel
    rw [revealLoop_succ]
    cases hpop : popMin queue with
    | none => rfl
    | some mr =>
      obtain ⟨item, rest⟩ := mr
      obtain ⟨dst, m⟩ := item
      have hlen : queue.length = rest.length + 1 := by
        have h := (popMin_perm hpop).length_eq
        simpa using h
      change (if m.1 < 0 ∨ m.1 ≥ g.height ∨ m.2 < 0 ∨ m.2 ≥ g.width then
          revealLoop sr sc fuel g rest s
        else if (cellAtN g m.1 m.2).revealed ∨ (cellAtN g m.1 m.2).flagged then
          revealLoop sr sc fuel g rest s
        else if (cellAtN g m.1 m.2).value ≠ 0 then
          revealLoop sr sc fuel (revealAt g m) rest s
        else
          revealLoop sr sc fuel (revealAt g m)
            (pushNeighbors sr sc m.1 m.2 rest s).1
            (pushNeighbors sr sc m.1 m.2 rest s).2).isSome
      by_cases hOOB : m.1 < 0 ∨ m.1 ≥ g.height ∨ m.2 < 0 ∨ m.2 ≥ g.width
      · rw [if_pos hOOB]
        exact ih g rest s hwf (by omega)
      · rw [if_neg hOOB]
        have hmB : inB g m := by unfold inB; omega
        by_cases hrf : (cellAtN g m.1 m.2).revealed ∨ (cellAtN g m.1 m.2).flagged
        · rw [if_pos hrf]
          exact ih g rest s hwf (by omega)
        · rw [if_neg hrf]
          push_neg at hrf
          have hun : (cellAtP g m).revealed = false := by
            unfold cellAtP
            exact Bool.eq_false_iff.mpr hrf.1
          have hwf1 : wf (revealAt g m) := wf_revealAt hwf hmB
          have hU : unrevealedCount g = unrevealedCount (revealAt g m) + 1 :=
            unrevealedCount_revealAt hwf hmB hun
          by_cases hval : (cellAtN g m.1 m.2).value ≠ 0
          · rw [if_pos hval]
            exact ih (revealAt g m) rest s hwf1 (by omega)
          · rw [if_neg hval]
            have hql := pushN_length sr sc m.1 m.2 rest s
            exact ih (revealAt g m) _ _ hwf1 (by omega)

theorem unrevealedCount_le (g : Grid) : unrevealedCount g ≤ g.height.toNat * g.width.toNat := by
  have h1 := revealedCells_add_unrevealed g
  have h2 := card_cellFinset g
  omega

/-- reveal_cells never runs out of the canonical fuel. -/
theorem reveal_cells_isSome {g : Grid} (hwf : wf g) (sr sc : Int) :
    (reveal_cells g sr sc).isSome := by
  unfold reveal_cells fuelBound
  apply revealLoop_terminates sr sc _ g _ _ hwf
  have h := unrevealedCount_le g
  simp only [List.length_singleton]
  omega

/-- The master characterization specialized to reveal_cells: the revealed
region grows exactly by the cells reachable from the start coordinate. -/
theorem reveal_cells_spec {g : Grid} (hwf : wf g) {sr sc : Int} {g' : Grid}
    (hrun : reveal_cells g sr sc = some g') :
    wf g' ∧ g'.width = g.width ∧ g'.height = g.height ∧
    (∀ p, inB g p → (cellAtP g' p).value = (cellAtP g p).value ∧
      (cellAtP g' p).flagged = (cellAtP g p).flagged) ∧
    (∀ p, inB g p → ((cellAtP g' p).revealed = true ↔
      (cellAtP g p).revealed = true ∨ Reach g (sr, sc) p)) ∧
    g'.revealed_count + revealedCells g = g.revealed_count + revealedCells g' := by
  have hqi : queueInv g [(0, sr, sc)] ∅ := by
    intro p hp
    exact absurd hp (Finset.not_mem_empty p)
  obtain ⟨hwf', hW, hH, hpt, hrev, hcnt⟩ :=
    revealLoop_spec sr sc (fuelBound g) g [(0, sr, sc)] ∅ g' hwf hqi hrun
  refine ⟨hwf', hW, hH, hpt, ?_, hcnt⟩
  intro p hp
  rw [hrev p hp]
  constructor
  · rintro (h | ⟨q, hq, hr⟩)
    · exact Or.inl h
    · refine Or.inr ?_
      have hq' : q = (sr, sc) := by
        simpa [qpos] using hq
      rw [← hq']
      exact hr
  · rintro (h | h)
    · exact Or.inl h
    · exact Or.inr ⟨(sr, sc), by simp [qpos], h⟩

end Minesweeper

namespace Minesweeper

attribute [ext] Cell

theorem bool_eq_of_iff {a b : Bool} (h : a = true ↔ b = true) : a = b := by
  cases a <;> cases b <;> simp_all

theorem reach_of_nonzero {g : Grid} {s p : Int × Int}
    (hval : (cellAtP g s).value ≠ 0) (h : Reach g s p) : p = s := by
  cases h with
  | refl _ _ => rfl
  | step _ _ _ _ hv _ _ => exact absurd hv hval

theorem mooreBombCount_pos {g : Grid} {row col : Int} {p : Int × Int}
    (hij : (p.1 - row, p.2 - col) ∈ offsets) (hne : p ≠ (row, col))
    (hpB : inB g p) (hbomb : (cellAtN g p.1 p.2).value = -1) :
    0 < mooreBombCount g row col := by
  have harith1 : row + (p.1 - row) = p.1 := by ring
  have harith2 : col + (p.2 - col) = p.2 := by ring
  unfold mooreBombCount
  apply @List.length_pos_of_mem _ (p.1 - row, p.2 - col)
  rw [List.mem_filter]
  refine ⟨hij, ?_⟩
  rw [Bool.and_eq_true, Bool.and_eq_true]
  refine ⟨⟨?_, ?_⟩, ?_⟩
  · rw [decide_eq_true_eq]
    intro hcon
    apply hne
    have e1 : p.1 - row = 0 := congrArg Prod.fst hcon
    have e2 : p.2 - col = 0 := congrArg Prod.snd hcon
    apply Prod.ext <;> dsimp <;> omega
  · rw [decide_eq_true_eq]
    obtain ⟨h1, h2, h3, h4⟩ := hpB
    rw [harith1, harith2]
    exact ⟨h1, h2, h3, h4⟩
  · rw [decide_eq_true_eq]
    rw [harith1, harith2]
    exact hbomb

/-- On a board satisfying the generation invariant, a zero-valued cell has no
bomb among its Moore neighbours. -/
theorem no_bomb_neighbor {g : Grid} (hinv : adjInv g) {t p : Int × Int}
    (htB : inB g t) (ht0 : (cellAtP g t).value = 0) (hadj : Adj t p)
    (hp : inB g p) : (cellAtP g p).value ≠ -1 := by
  intro hbomb
  obtain ⟨hij, hne⟩ := hadj
  have hpos := @mooreBombCount_pos g t.1 t.2 p hij
    (by intro hcon; exact hne (by rw [hcon])) hp hbomb
  obtain ⟨h1, h2, h3, h4⟩ := htB
  have e1 : ((t.1.toNat : Nat) : Int) = t.1 := Int.toNat_of_nonneg h1
  have e2 : ((t.2.toNat : Nat) : Int) = t.2 := Int.toNat_of_nonneg h3
  have hval' : (cellAtN g ((t.1.toNat : Nat) : Int) ((t.2.toNat : Nat) : Int)).value = 0 := by
    rw [e1, e2]
    exact ht0
  have hv := hinv t.1.toNat (by omega) t.2.toNat (by omega) (by rw [hval']; omega)
  rw [hval'] at hv
  rw [e1, e2] at hv
  have hz : mooreBombCount g t.1 t.2 = 0 := by omega
  omega

theorem getCellPy_some_eq {g : Grid} (hwf : wf g) {row col : Int} {cell : Cell}
    (h : getCellPy g row col = some cell) :
    ∃ r c : Nat, r < g.height.toNat ∧ c < g.width.toNat ∧
      cell = cellAtN g (r : Int) (c : Int) ∧
      ∀ cl : Cell, setCellPy g row col cl = some (setCell g (r : Int) (c : Int) cl) := by
  unfold getCellPy at h
  cases h1 : pyIdx g.cells.length row with
  | none =>
    rw [h1] at h
    cases h
  | some r =>
    rw [h1] at h
    dsimp only at h
    cases h2 : pyIdx (g.cells.getD r []).length col with
    | none =>
      rw [h2] at h
      cases h
    | some c =>
      rw [h2] at h
      have hr : r < g.cells.length := pyIdx_lt h1
      have hc : c < (g.cells.getD r []).length := pyIdx_lt h2
      simp only [Option.some.injEq] at h
      refine ⟨r, c, by rw [← hwf.1]; exact hr, by rw [← row_length hwf hr]; exact hc, ?_, ?_⟩
      · rw [← h]
        unfold cellAtN
        rw [Int.toNat_natCast, Int.toNat_natCast]
      · intro cl
        unfold setCellPy
        rw [h1]
        dsimp only
        rw [h2]
        unfold setCell
        rw [Int.toNat_natCast, Int.toNat_natCast]

theorem inB_of_nat {g : Grid} {r c : Nat} (hr : r < g.height.toNat) (hc : c < g.width.toNat) :
    inB g ((r : Int), (c : Int)) := by
  unfold inB
  constructor; · omega
  constructor; · omega
  constructor; · omega
  · omega

theorem revealedCells_setCell_same {g : Grid} (hwf : wf g) {m : Int × Int} (hm : inB g m)
    {cl : Cell} (hsame : cl.revealed = (cellAtP g m).revealed) :
    revealedCells (setCell g m.1 m.2 cl) = revealedCells g := by
  unfold revealedCells
  have hdim : cellFinset (setCell g m.1 m.2 cl) = cellFinset g := rfl
  rw [hdim]
  congr 1
  apply Finset.filter_congr
  intro rc hrc
  rw [mem_cellFinset] at hrc
  obtain ⟨h1, h2, h3, h4⟩ := hm
  have hup := @cellAtN_setCell g hwf m.1 m.2 (rc.1 : Int) (rc.2 : Int) cl
    ⟨h1, h2⟩ ⟨h3, h4⟩ (by omega) (by omega)
  rw [hup]
  by_cases heq : ((rc.1 : Int)) = m.1 ∧ ((rc.2 : Int)) = m.2
  · rw [if_pos heq]
    have : (cellAtP g m).revealed = (cellAtN g (rc.1 : Int) (rc.2 : Int)).revealed := by
      unfold cellAtP
      rw [← heq.1, ← heq.2]
    rw [hsame, this]
  · rw [if_neg heq]

theorem flag_cell_spec {g : Grid} (hwf : wf g) {row col : Int} {g' : Grid}
    (hrun : flag_cell g row col = some g') :
    wf g' ∧ g'.width = g.width ∧ g'.height = g.height ∧
    g'.revealed_count = g.revealed_count ∧ revealedCells g' = revealedCells g := by
  unfold flag_cell at hrun
  cases hget : getCellPy g row col with
  | none =>
    rw [hget] at hrun
    cases hrun
  | some cell =>
    rw [hget] at hrun
    obtain ⟨r, c, hr, hc, hcell, hset⟩ := getCellPy_some_eq hwf hget
    change (if ¬cell.revealed then setCellPy g row col cell.flag else some g) = some g' at hrun
    split at hrun
    · rw [hset cell.flag] at hrun
      simp only [Option.some.injEq] at hrun
      subst hrun
      have hB : inB g ((r : Int), (c : Int)) := inB_of_nat hr hc
      have hrevsame : (cell.flag).revealed = cell.revealed := by
        unfold Cell.flag
        split <;> rfl
      refine ⟨wf_setCell hwf _ ⟨hB.1, hB.2.1⟩ ⟨hB.2.2.1, hB.2.2.2⟩, rfl, rfl, rfl, ?_⟩
      apply revealedCells_setCell_same hwf hB
      rw [hrevsame, hcell]
      rfl
    · simp only [Option.some.injEq] at hrun
      subst hrun
      exact ⟨hwf, rfl, rfl, rfl, rfl⟩

end Minesweeper

namespace Minesweeper

/-- C2: on a generated board with no cell yet revealed, one reveal call at an
in-bounds, unflagged, zero-valued start cell reveals exactly the start cell's
connected zero-valued region (through unflagged cells, Moore adjacency) plus
the revealable numbered cells immediately bordering it, and changes no other
cell's revealed state; the bordering cells are numbered, never bombs. -/
theorem flood_fill_reveals_region (g : Grid) (sr sc : Int) (g' : Grid)
    (hwf : wf g) (hinv : adjInv g)
    (hfresh : ∀ p, inB g p → (cellAtP g p).revealed = false)
    (hin : inB g (sr, sc))
    (hval : (cellAtP g (sr, sc)).value = 0)
    (hflag : (cellAtP g (sr, sc)).flagged = false)
    (hrun : reveal_cells g sr sc = some g') :
    (∀ p, inB g p → ((cellAtP g' p).revealed = true ↔
      zeroRegion g (sr, sc) p ∨ regionBorder g (sr, sc) p)) ∧
    (∀ p, regionBorder g (sr, sc) p →
      (cellAtP g p).value ≠ -1 ∧ (cellAtP g p).value ≠ 0) := by
  obtain ⟨-, -, -, -, hrev, -⟩ := reveal_cells_spec hwf hrun
  constructor
  · intro p hp
    rw [hrev p hp, hfresh p hp]
    rw [← reach_iff_region hval p]
    constructor
    · rintro (h | h)
      · cases h
      · exact h
    · intro h
      exact Or.inr h
  · intro p hb
    refine ⟨?_, hb.2.1⟩
    obtain ⟨hrevp, hne0, t, ⟨htreach, ht0⟩, hadj⟩ := hb
    exact no_bomb_neighbor hinv (reach_tgt htreach).1 ht0 hadj hrevp.1

/-- C3: a flood-fill reveal never turns a flagged cell revealed, and never
turns a bomb cell revealed unless that bomb is the start coordinate of the
call itself. -/
theorem flood_fill_safety (g : Grid) (sr sc : Int) (g' : Grid)
    (hwf : wf g) (hinv : adjInv g) (hin : inB g (sr, sc))
    (hrun : reveal_cells g sr sc = some g') :
    (∀ p, inB g p → (cellAtP g p).flagged = true →
      (cellAtP g' p).revealed = (cellAtP g p).revealed) ∧
    (∀ p, inB g p → (cellAtP g p).value = -1 → p ≠ (sr, sc) →
      (cellAtP g' p).revealed = (cellAtP g p).revealed) := by
  obtain ⟨-, -, -, -, hrev, -⟩ := reveal_cells_spec hwf hrun
  constructor
  · intro p hp hfl
    apply bool_eq_of_iff
    rw [hrev p hp]
    constructor
    · rintro (h | h)
      · exact h
      · have hc := (reach_tgt h).2.2
        rw [hfl] at hc
        cases hc
    · exact Or.inl
  · intro p hp hbomb hne
    apply bool_eq_of_iff
    rw [hrev p hp]
    constructor
    · rintro (h | h)
      · exact h
      · exfalso
        rcases reach_last h with rfl | ⟨t, htr, ht0, hadj⟩
        · exact hne rfl
        · exact no_bomb_neighbor hinv htr.1 ht0 hadj hp hbomb
    · exact Or.inl

/-- C9: for every well-formed board and every start coordinate, the
flood-fill loop terminates: run with the fuel 10 * height * width + 2, a
function of the board dimensions alone, it empties its queue and returns a
board, even though the enqueue condition can enqueue duplicate and
out-of-bounds coordinates. -/
theorem flood_fill_terminates (g : Grid) (sr sc : Int) (hwf : wf g)
    (hin : inB g (sr, sc)) : (reveal_cells g sr sc).isSome :=
  reveal_cells_isSome hwf sr sc

/-- C10: starting from a board with revealed_count zero and no revealed cell,
every sequence of reveal and flag operations keeps revealed_count equal to
the number of cells whose revealed field is true. -/
theorem revealed_count_invariant (g0 : Grid) (hwf : wf g0)
    (hcnt : g0.revealed_count = 0)
    (hfresh : ∀ p, inB g0 p → (cellAtP g0 p).revealed = false) :
    ∀ (ops : List GameOp) (g' : Grid), applyOps g0 ops = some g' →
      g'.revealed_count = revealedCells g' := by
  have h0 : revealedCells g0 = 0 := by
    unfold revealedCells
    rw [Finset.card_eq_zero, Finset.filter_eq_empty_iff]
    intro rc hrc
    rw [mem_cellFinset] at hrc
    have hf := hfresh ((rc.1 : Int), (rc.2 : Int)) (inB_of_nat hrc.1 hrc.2)
    unfold cellAtP at hf
    rw [hf]
    simp
  suffices h : ∀ (ops : List GameOp) (g1 : Grid), wf g1 →
      g1.revealed_count = revealedCells g1 →
      ∀ g', applyOps g1 ops = some g' →
      (wf g' ∧ g'.revealed_count = revealedCells g') by
    intro ops g' hrun
    exact (h ops g0 hwf (by omega) g' hrun).2
  intro ops
  induction ops with
  | nil =>
    intro g1 hwf1 hinv g' hrun
    unfold applyOps at hrun
    simp only [Option.some.injEq] at hrun
    subst hrun
    exact ⟨hwf1, hinv⟩
  | cons op ops ih =>
    intro g1 hwf1 hinv g' hrun
    unfold applyOps at hrun
    cases happ : applyOp g1 op with
    | none =>
      rw [happ] at hrun
      cases hrun
    | some g2 =>
      rw [happ] at hrun
      refine ih g2 ?_ ?_ g' hrun |>.imp id id
      · cases op with
        | reveal r c =>
          unfold applyOp at happ
          exact (reveal_cells_spec hwf1 happ).1
        | flag r c =>
          unfold applyOp at happ
          exact (flag_cell_spec hwf1 happ).1
      · cases op with
        | reveal r c =>
          unfold applyOp at happ
          have hc := (reveal_cells_spec hwf1 happ).2.2.2.2.2
          omega
        | flag r c =>
          unfold applyOp at happ
          obtain ⟨-, -, -, hc1, hc2⟩ := flag_cell_spec hwf1 happ
          omega

end Minesweeper

namespace Minesweeper

/-- A reveal starting on a cell with nonzero value (bomb or number) touches
at most that one cell: every other cell is fully unchanged. -/
theorem reveal_cells_nonzero {g : Grid} (hwf : wf g) {sr sc : Int} {g' : Grid}
    (hin : inB g (sr, sc)) (hval : (cellAtP g (sr, sc)).value ≠ 0)
    (hrun : reveal_cells g sr sc = some g') :
    ((cellAtP g (sr, sc)).flagged = false → (cellAtP g' (sr, sc)).revealed = true) ∧
    (∀ p, inB g p → p ≠ (sr, sc) → cellAtP g' p = cellAtP g p) ∧
    (cellAtP g' (sr, sc)).value = (cellAtP g (sr, sc)).value ∧
    (cellAtP g' (sr, sc)).flagged = (cellAtP g (sr, sc)).flagged := by
  obtain ⟨-, -, -, hpt, hrev, -⟩ := reveal_cells_spec hwf hrun
  refine ⟨?_, ?_, (hpt _ hin).1, (hpt _ hin).2⟩
  · intro hflag
    rw [hrev _ hin]
    cases hr : (cellAtP g (sr, sc)).revealed with
    | true => exact Or.inl rfl
    | false =>
      refine Or.inr (Reach.refl _ ⟨hin, hr, hflag⟩)
  · intro p hp hne
    have h1 := (hpt p hp).1
    have h2 := (hpt p hp).2
    have h3 : (cellAtP g' p).revealed = (cellAtP g p).revealed := by
      apply bool_eq_of_iff
      rw [hrev p hp]
      constructor
      · rintro (h | h)
        · exact h
        · exact absurd (reach_of_nonzero hval h) hne
      · exact Or.inl
    ext
    · exact h1
    · exact h3
    · exact h2

theorem click_eq_of_get {g : Grid} {row col : Int} {cell : Cell} (button : Nat)
    (h : getCellPy g row col = some cell) :
    click g row col button =
      (if button = 1 then
        if cell.value = -1 ∧ ¬cell.flagged then
          (reveal_cells g row col).map (fun g1 => (false, g1))
        else if cell.value = -1 ∧ cell.flagged then
          some (true, g)
        else
          (reveal_cells g row col).map (fun g1 => (true, g1))
      else if button = 3 then
        (flag_cell g row col).map (fun g1 => (true, g1))
      else if button = 2 then
        some (true, g)
      else none) := by
  unfold click
  rw [h]

/-- C4: clicking an in-bounds bomb cell: if it is not flagged, the click
reveals exactly that cell, changes nothing else, and returns False (the
game-over path) with no flood-fill expansion; if it is flagged, the click is
a no-op returning True (Continuing) with the board unchanged. -/
theorem bomb_click (g : Grid) (r c : Int) (hwf : wf g)
    (hin : inB g (r, c)) (hbomb : (cellAtP g (r, c)).value = -1) :
    ((cellAtP g (r, c)).flagged = false →
      ∃ g', click g r c 1 = some (false, g') ∧
        (cellAtP g' (r, c)).revealed = true ∧
        (cellAtP g' (r, c)).value = (cellAtP g (r, c)).value ∧
        (cellAtP g' (r, c)).flagged = (cellAtP g (r, c)).flagged ∧
        (∀ p, inB g p → p ≠ (r, c) → cellAtP g' p = cellAtP g p)) ∧
    ((cellAtP g (r, c)).flagged = true → click g r c 1 = some (true, g)) := by
  have hcell : getCellPy g r c = some (cellAtN g r c) :=
    getCellPy_inB hwf ⟨hin.1, hin.2.1⟩ ⟨hin.2.2.1, hin.2.2.2⟩
  have hcp : cellAtP g (r, c) = cellAtN g r c := rfl
  constructor
  · intro hflag
    obtain ⟨g', hg'⟩ := Option.isSome_iff_exists.mp (reveal_cells_isSome hwf r c)
    have hclick : click g r c 1 = some (false, g') := by
      rw [click_eq_of_get 1 hcell, if_pos rfl, if_pos ?_, hg']
      · rfl
      · constructor
        · rw [← hcp]; exact hbomb
        · rw [← hcp, hflag]; exact Bool.false_ne_true
    obtain ⟨hrev1, hother, hv, hf⟩ := reveal_cells_nonzero hwf hin
      (by rw [hbomb]; omega) hg'
    exact ⟨g', hclick, hrev1 hflag, hv, hf, hother⟩
  · intro hflag
    rw [click_eq_of_get 1 hcell, if_pos rfl, if_neg ?_, if_pos ?_]
    · constructor
      · rw [← hcp]; exact hbomb
      · rw [← hcp, hflag]
    · rintro ⟨-, hcon⟩
      rw [← hcp, hflag] at hcon
      exact hcon rfl

/-- C5: after a primary click that is not on a non-flagged bomb, the observed
outcome is Won exactly when revealed_count equals width * height minus the
bomb count and Continuing exactly otherwise (so Continuing for every lesser
count); a click on a non-flagged bomb gives HitBomb regardless of the
count. -/
theorem win_detection (g : Grid) (nb : Nat) (r c : Int) (hwf : wf g)
    (hin : inB g (r, c)) :
    (((cellAtP g (r, c)).value = -1 ∧ (cellAtP g (r, c)).flagged = false) →
      ∃ g', clickOutcome g nb r c = some (RevealOutcome.HitBomb, g')) ∧
    (¬((cellAtP g (r, c)).value = -1 ∧ (cellAtP g (r, c)).flagged = false) →
      ∃ g' o, clickOutcome g nb r c = some (o, g') ∧
        (o = RevealOutcome.Won ↔ (g'.revealed_count : Int) = g.width * g.height - (nb : Int)) ∧
        (o = RevealOutcome.Continuing ↔ (g'.revealed_count : Int) ≠ g.width * g.height - (nb : Int)) ∧
        o ≠ RevealOutcome.HitBomb) := by
  have hcell : getCellPy g r c = some (cellAtN g r c) :=
    getCellPy_inB hwf ⟨hin.1, hin.2.1⟩ ⟨hin.2.2.1, hin.2.2.2⟩
  have hcp : cellAtP g (r, c) = cellAtN g r c := rfl
  constructor
  · rintro ⟨hbomb, hflag⟩
    obtain ⟨g', hg'⟩ := Option.isSome_iff_exists.mp (reveal_cells_isSome hwf r c)
    have hclick : click g r c 1 = some (false, g') := by
      rw [click_eq_of_get 1 hcell, if_pos rfl, if_pos ?_, hg']
      · rfl
      · constructor
        · rw [← hcp]; exact hbomb
        · rw [← hcp, hflag]; exact Bool.false_ne_true
    refine ⟨g', ?_⟩
    unfold clickOutcome
    rw [hclick]
    rfl
  · intro hnot
    have hcases : (cellAtP g (r, c)).value ≠ -1 ∨ (cellAtP g (r, c)).flagged = true := by
      by_cases hb : (cellAtP g (r, c)).value = -1
      · refine Or.inr ?_
        cases hf : (cellAtP g (r, c)).flagged with
        | false => exact absurd ⟨hb, hf⟩ hnot
        | true => rfl
      · exact Or.inl hb
    have hmain : ∃ g', click g r c 1 = some (true, g') ∧
        g'.width = g.width ∧ g'.height = g.height := by
      rcases hcases with hb | hf
      · obtain ⟨g', hg'⟩ := Option.isSome_iff_exists.mp (reveal_cells_isSome hwf r c)
        obtain ⟨-, hW, hH, -⟩ := reveal_cells_spec hwf hg'
        refine ⟨g', ?_, hW, hH⟩
        rw [click_eq_of_get 1 hcell, if_pos rfl, if_neg ?_, if_neg ?_, hg']
        · rfl
        · rintro ⟨hcon, -⟩
          rw [← hcp] at hcon
          exact hb hcon
        · rintro ⟨hcon, -⟩
          rw [← hcp] at hcon
          exact hb hcon
      · by_cases hb : (cellAtP g (r, c)).value = -1
        · refine ⟨g, ?_, rfl, rfl⟩
          rw [click_eq_of_get 1 hcell, if_pos rfl, if_neg ?_, if_pos ?_]
          · constructor
            · rw [← hcp]; exact hb
            · rw [← hcp, hf]
          · rintro ⟨-, hcon⟩
            rw [← hcp, hf] at hcon
            exact hcon rfl
        · obtain ⟨g', hg'⟩ := Option.isSome_iff_exists.mp (reveal_cells_isSome hwf r c)
          obtain ⟨-, hW, hH, -⟩ := reveal_cells_spec hwf hg'
          refine ⟨g', ?_, hW, hH⟩
          rw [click_eq_of_get 1 hcell, if_pos rfl, if_neg ?_, if_neg ?_, hg']
          · rfl
          · rintro ⟨hcon, -⟩
            rw [← hcp] at hcon
            exact hb hcon
          · rintro ⟨hcon, -⟩
            rw [← hcp] at hcon
            exact hb hcon
    obtain ⟨g', hclick, hW, hH⟩ := hmain
    have hwin_iff : winCheck g' nb = true ↔
        (g'.revealed_count : Int) = g.width * g.height - (nb : Int) := by
      unfold winCheck
      rw [decide_eq_true_eq, hW, hH]
    have hout : clickOutcome g nb r c =
        some ((if winCheck g' nb then RevealOutcome.Won else RevealOutcome.Continuing), g') := by
      unfold clickOutcome
      rw [hclick]
      simp only [Option.map_some']
      cases hwc : winCheck g' nb with
      | true => rfl
      | false => rfl
    cases hwc : winCheck g' nb with
    | true =>
      rw [hwc] at hout
      refine ⟨g', RevealOutcome.Won, by simpa using hout, ?_, ?_, by decide⟩
      · exact iff_of_true rfl (hwin_iff.mp hwc)
      · refine iff_of_false (by decide) ?_
        intro hcon
        exact hcon (hwin_iff.mp hwc)
    | false =>
      rw [hwc] at hout
      refine ⟨g', RevealOutcome.Continuing, by simpa using hout, ?_, ?_, by decide⟩
      · refine iff_of_false (by decide) ?_
        intro hcon
        rw [← hwin_iff] at hcon
        rw [hwc] at hcon
        cases hcon
      · refine iff_of_true rfl ?_
        intro hcon
        rw [← hwin_iff] at hcon
        rw [hwc] at hcon
        cases hcon

end Minesweeper

namespace Minesweeper

theorem placeBombs_spec : ∀ (ps : List Nat) (g : Grid), wf g →
    (∀ q ∈ ps, q < g.height.toNat * g.width.toNat) →
    wf (placeBombs g ps) ∧
    (placeBombs g ps).width = g.width ∧ (placeBombs g ps).height = g.height ∧
    (placeBombs g ps).revealed_count = g.revealed_count ∧
    (∀ r, r < g.height.toNat → ∀ c, c < g.width.toNat →
      cellAtN (placeBombs g ps) (r : Int) (c : Int) =
        (if r * g.width.toNat + c ∈ ps
          then { cellAtN g (r : Int) (c : Int) with value := -1 }
          else cellAtN g (r : Int) (c : Int))) := by
  intro ps
  induction ps with
  | nil =>
    intro g hwf _
    refine ⟨hwf, rfl, rfl, rfl, ?_⟩
    intro r _ c _
    rw [if_neg (List.not_mem_nil _)]
    rfl
  | cons p ps ih =>
    intro g hwf hlt
    have hp : p < g.height.toNat * g.width.toNat := hlt p (List.mem_cons_self ..)
    have hw0 : 0 < g.width.toNat := by
      rcases Nat.eq_zero_or_pos g.width.toNat with h | h
      · rw [h] at hp; omega
      · exact h
    have hrowlt : p / g.width.toNat < g.height.toNat := by
      rw [Nat.div_lt_iff_lt_mul hw0]
      calc p < g.height.toNat * g.width.toNat := hp
      _ = g.height.toNat * g.width.toNat := rfl
    have hcollt : p % g.width.toNat < g.width.toNat := Nat.mod_lt _ hw0
    set g1 := setCell g ((p / g.width.toNat : Nat) : Int) ((p % g.width.toNat : Nat) : Int)
      { cellAtN g ((p / g.width.toNat : Nat) : Int) ((p % g.width.toNat : Nat) : Int) with
        value := -1 } with hg1
    have hstep : placeBombs g (p :: ps) = placeBombs g1 ps := rfl
    have hB : inB g (((p / g.width.toNat : Nat) : Int), ((p % g.width.toNat : Nat) : Int)) :=
      inB_of_nat hrowlt hcollt
    have hwf1 : wf g1 := wf_setCell hwf _ ⟨hB.1, hB.2.1⟩ ⟨hB.2.2.1, hB.2.2.2⟩
    have hWn : g1.width.toNat = g.width.toNat := rfl
    have hHn : g1.height.toNat = g.height.toNat := rfl
    have hlt1 : ∀ q ∈ ps, q < g1.height.toNat * g1.width.toNat := by
      intro q hq
      rw [hWn, hHn]
      exact hlt q (List.mem_cons_of_mem _ hq)
    obtain ⟨hwf', hW, hH, hcnt, hpt⟩ := ih g1 hwf1 hlt1
    rw [hWn] at hpt
    rw [hHn] at hpt
    refine ⟨by rw [hstep]; exact hwf', by rw [hstep, hW]; rfl, by rw [hstep, hH]; rfl,
      by rw [hstep, hcnt]; rfl, ?_⟩
    intro r hr c hc
    rw [hstep, hpt r hr c hc]
    have hg1at : cellAtN g1 (r : Int) (c : Int) =
        if ((r : Int)) = ((p / g.width.toNat : Nat) : Int) ∧
            ((c : Int)) = ((p % g.width.toNat : Nat) : Int)
          then { cellAtN g ((p / g.width.toNat : Nat) : Int)
            ((p % g.width.toNat : Nat) : Int) with value := -1 }
          else cellAtN g (r : Int) (c : Int) := by
      rw [hg1]
      exact cellAtN_setCell hwf _ ⟨hB.1, hB.2.1⟩ ⟨hB.2.2.1, hB.2.2.2⟩
        ⟨by omega, by omega⟩ ⟨by omega, by omega⟩
    have hkey : (r * g.width.toNat + c = p) ↔ (r = p / g.width.toNat ∧ c = p % g.width.toNat) := by
      constructor
      · rintro rfl
        constructor
        · rw [Nat.add_comm, Nat.add_mul_div_right _ _ hw0, Nat.div_eq_of_lt hc]
          omega
        · rw [Nat.add_comm, Nat.add_mul_mod_self_right, Nat.mod_eq_of_lt hc]
      · rintro ⟨rfl, rfl⟩
        have hdm := Nat.div_add_mod p g.width.toNat
        rw [Nat.mul_comm] at hdm
        exact hdm
    by_cases hmem : r * g.width.toNat + c ∈ ps
    · rw [if_pos hmem, if_pos (List.mem_cons_of_mem _ hmem), hg1at]
      by_cases heq : ((r : Int)) = ((p / g.width.toNat : Nat) : Int) ∧
          ((c : Int)) = ((p % g.width.toNat : Nat) : Int)
      · rw [if_pos heq]
        have hr' : r = p / g.width.toNat := by exact_mod_cast heq.1
        have hc' : c = p % g.width.toNat := by exact_mod_cast heq.2
        subst hr'
        subst hc'
        rfl
      · rw [if_neg heq]
    · rw [if_neg hmem]
      by_cases heqp : r * g.width.toNat + c = p
      · obtain ⟨hr', hc'⟩ := hkey.mp heqp
        subst hr'
        subst hc'
        rw [if_pos (by rw [heqp]; exact List.mem_cons_self ..), hg1at,
          if_pos ⟨rfl, rfl⟩]
      · rw [if_neg ?_, hg1at, if_neg ?_]
        · intro hcon
          apply heqp
          apply hkey.mpr
          constructor
          · exact_mod_cast hcon.1
          · exact_mod_cast hcon.2
        · rw [List.mem_cons]
          rintro (h | h)
          · exact heqp h
          · exact hmem h

end Minesweeper

namespace Minesweeper

/-- The inner (column) loop of computeNumbers over the first C columns of one
row. -/
def cnInner (row : Nat) (g1 : Grid) (C : Nat) : Grid :=
  (List.range C).foldl
    (fun (g2 : Grid) (col : Nat) =>
      let cell := cellAtN g2 (row : Int) (col : Int)
      if cell.value = -1 then g2
      else
        setCell g2 (row : Int) (col : Int)
          { cell with value := countAdjacentBombs g2 (row : Int) (col : Int) })
    g1

/-- The outer (row) loop of computeNumbers over the first R rows. -/
def cnOuter (W : Nat) (g1 : Grid) (R : Nat) : Grid :=
  (List.range R).foldl (fun (g2 : Grid) (row : Nat) => cnInner row g2 W) g1

theorem computeNumbers_eq (g : Grid) :
    computeNumbers g = cnOuter g.width.toNat g g.height.toNat := rfl

theorem cnInner_succ (row : Nat) (g1 : Grid) (C : Nat) :
    cnInner row g1 (C + 1) =
      (let cell := cellAtN (cnInner row g1 C) (row : Int) (C : Int)
      if cell.value = -1 then cnInner row g1 C
      else
        setCell (cnInner row g1 C) (row : Int) (C : Int)
          { cell with value := countAdjacentBombs (cnInner row g1 C) (row : Int) (C : Int) }) := by
  unfold cnInner
  rw [List.range_succ, List.foldl_append]
  rfl

theorem cnOuter_succ (W : Nat) (g1 : Grid) (R : Nat) :
    cnOuter W g1 (R + 1) = cnInner R (cnOuter W g1 R) W := by
  unfold cnOuter
  rw [List.range_succ, List.foldl_append]
  rfl

theorem countAdj_fold_nonneg (g : Grid) (row col : Int) :
    ∀ (L : List (Int × Int)) (n : Int), n ≤ L.foldl
      (fun count ij =>
        if 0 ≤ row + ij.1 ∧ row + ij.1 < g.height ∧ 0 ≤ col + ij.2 ∧ col + ij.2 < g.width then
          if (cellAtN g (row + ij.1) (col + ij.2)).value = -1 then count + 1 else count
        else count)
      n := by
  intro L
  induction L with
  | nil => intro n; exact le_refl n
  | cons ij L ih =>
    intro n
    refine le_trans ?_ (ih _)
    dsimp only
    split
    · split
      · omega
      · exact le_refl n
    · exact le_refl n

theorem countAdjacentBombs_nonneg (g : Grid) (row col : Int) :
    0 ≤ countAdjacentBombs g row col :=
  countAdj_fold_nonneg g row col offsets 0

theorem countAdjacentBombs_congr {g1 g2 : Grid} (hW : g1.width = g2.width)
    (hH : g1.height = g2.height)
    (hbomb : ∀ r, r < g2.height.toNat → ∀ c, c < g2.width.toNat →
      ((cellAtN g1 (r : Int) (c : Int)).value = -1 ↔ (cellAtN g2 (r : Int) (c : Int)).value = -1))
    (row col : Int) : countAdjacentBombs g1 row col = countAdjacentBombs g2 row col := by
  unfold countAdjacentBombs
  apply List.foldl_ext
  intro acc ij _
  rw [hW, hH]
  split
  · rename_i hbounds
    have hiff := hbomb (row + ij.1).toNat (by omega) (col + ij.2).toNat (by omega)
    rw [Int.toNat_of_nonneg (by omega), Int.toNat_of_nonneg (by omega)] at hiff
    by_cases hb : (cellAtN g1 (row + ij.1) (col + ij.2)).value = -1
    · rw [if_pos hb, if_pos (hiff.mp hb)]
    · rw [if_neg hb, if_neg (fun hcon => hb (hiff.mpr hcon))]
  · rfl

theorem cnInner_spec (row : Nat) : ∀ (C : Nat) (g1 : Grid), wf g1 →
    row < g1.height.toNat → C ≤ g1.width.toNat →
    wf (cnInner row g1 C) ∧
    (cnInner row g1 C).width = g1.width ∧ (cnInner row g1 C).height = g1.height ∧
    (cnInner row g1 C).revealed_count = g1.revealed_count ∧
    (∀ r, r < g1.height.toNat → ∀ c, c < g1.width.toNat →
      cellAtN (cnInner row g1 C) (r : Int) (c : Int) =
        if r = row ∧ c < C ∧ (cellAtN g1 (r : Int) (c : Int)).value ≠ -1
          then { cellAtN g1 (r : Int) (c : Int) with
            value := countAdjacentBombs g1 (r : Int) (c : Int) }
          else cellAtN g1 (r : Int) (c : Int)) := by
  intro C
  induction C with
  | zero =>
    intro g1 hwf hrow _
    refine ⟨hwf, rfl, rfl, rfl, ?_⟩
    intro r hr c hc
    rw [if_neg (by omega)]
    rfl
  | succ C ih =>
    intro g1 hwf hrow hC
    obtain ⟨hwfC, hWC, hHC, hcntC, hptC⟩ := ih g1 hwf hrow (by omega)
    have hCn : (cnInner row g1 C).width.toNat = g1.width.toNat := by rw [hWC]
    have hCh : (cnInner row g1 C).height.toNat = g1.height.toNat := by rw [hHC]
    have hcellC : cellAtN (cnInner row g1 C) (row : Int) (C : Int) = cellAtN g1 (row : Int) (C : Int) := by
      rw [hptC row hrow C (by omega), if_neg (by omega)]
    have hbombiff : ∀ r, r < g1.height.toNat → ∀ c, c < g1.width.toNat →
        ((cellAtN (cnInner row g1 C) (r : Int) (c : Int)).value = -1 ↔
          (cellAtN g1 (r : Int) (c : Int)).value = -1) := by
      intro r hr c hc
      rw [hptC r hr c hc]
      split
      · rename_i hcond
        constructor
        · intro hcon
          have := countAdjacentBombs_nonneg g1 (r : Int) (c : Int)
          dsimp at hcon
          omega
        · intro hcon
          exact absurd hcon hcond.2.2
      · exact Iff.rfl
    have hcong : countAdjacentBombs (cnInner row g1 C) (row : Int) (C : Int) =
        countAdjacentBombs g1 (row : Int) (C : Int) :=
      countAdjacentBombs_congr hWC hHC hbombiff (row : Int) (C : Int)
    rw [cnInner_succ]
    by_cases hbC : (cellAtN (cnInner row g1 C) (row : Int) (C : Int)).value = -1
    · rw [if_pos hbC]
      refine ⟨hwfC, hWC, hHC, hcntC, ?_⟩
      intro r hr c hc
      rw [hptC r hr c hc]
      have hbC1 : (cellAtN g1 (row : Int) (C : Int)).value = -1 := by
        rw [← hcellC]
        exact hbC
      by_cases hcond : r = row ∧ c < C ∧ (cellAtN g1 (r : Int) (c : Int)).value ≠ -1
      · rw [if_pos hcond, if_pos ⟨hcond.1, by omega, hcond.2.2⟩]
      · rw [if_neg hcond, if_neg ?_]
        rintro ⟨h1, h2, h3⟩
        apply hcond
        refine ⟨h1, ?_, h3⟩
        by_cases hcC : c = C
        · exfalso
          apply h3
          rw [h1, hcC]
          exact hbC1
        · omega
    · rw [if_neg hbC]
      have hin1 : inB (cnInner row g1 C) ((row : Int), (C : Int)) := by
        apply inB_of_nat
        · rw [hCh]; exact hrow
        · rw [hCn]; omega
      refine ⟨wf_setCell hwfC _ ⟨hin1.1, hin1.2.1⟩ ⟨hin1.2.2.1, hin1.2.2.2⟩,
        hWC, hHC, hcntC, ?_⟩
      intro r hr c hc
      have hset := @cellAtN_setCell (cnInner row g1 C) hwfC
        (row : Int) (C : Int) (r : Int) (c : Int)
        ({ cellAtN (cnInner row g1 C) (row : Int) (C : Int) with
          value := countAdjacentBombs (cnInner row g1 C) (row : Int) (C : Int) })
        ⟨hin1.1, hin1.2.1⟩ ⟨hin1.2.2.1, hin1.2.2.2⟩
        ⟨by omega, by rw [hHC]; omega⟩ ⟨by omega, by rw [hWC]; omega⟩
      rw [hset]
      have hbC1 : (cellAtN g1 (row : Int) (C : Int)).value ≠ -1 := by
        rw [← hcellC]
        exact hbC
      by_cases heq : ((r : Int)) = ((row : Nat) : Int) ∧ ((c : Int)) = ((C : Nat) : Int)
      · have hr' : r = row := by exact_mod_cast heq.1
        have hc' : c = C := by exact_mod_cast heq.2
        subst hr'
        subst hc'
        rw [if_pos heq, hcellC, hcong, if_pos ⟨rfl, by omega, hbC1⟩]
      · rw [if_neg heq, hptC r hr c hc]
        by_cases hcond : r = row ∧ c < C ∧ (cellAtN g1 (r : Int) (c : Int)).value ≠ -1
        · rw [if_pos hcond, if_pos ⟨hcond.1, by omega, hcond.2.2⟩]
        · rw [if_neg hcond, if_neg ?_]
          rintro ⟨h1, h2, h3⟩
          apply hcond
          refine ⟨h1, ?_, h3⟩
          by_cases hcC : c = C
          · exfalso
            apply heq
            rw [h1, hcC]
            exact ⟨rfl, rfl⟩
          · omega

end Minesweeper

namespace Minesweeper

theorem cnOuter_spec (W : Nat) : ∀ (R : Nat) (g1 : Grid), wf g1 →
    R ≤ g1.height.toNat → W = g1.width.toNat →
    wf (cnOuter W g1 R) ∧
    (cnOuter W g1 R).width = g1.width ∧ (cnOuter W g1 R).height = g1.height ∧
    (cnOuter W g1 R).revealed_count = g1.revealed_count ∧
    (∀ r, r < g1.height.toNat → ∀ c, c < g1.width.toNat →
      cellAtN (cnOuter W g1 R) (r : Int) (c : Int) =
        if r < R ∧ (cellAtN g1 (r : Int) (c : Int)).value ≠ -1
          then { cellAtN g1 (r : Int) (c : Int) with
            value := countAdjacentBombs g1 (r : Int) (c : Int) }
          else cellAtN g1 (r : Int) (c : Int)) := by
  intro R
  induction R with
  | zero =>
    intro g1 hwf _ _
    refine ⟨hwf, rfl, rfl, rfl, ?_⟩
    intro r _ c _
    rw [if_neg (by omega)]
    rfl
  | succ R ih =>
    intro g1 hwf hR hW
    obtain ⟨hwfR, hWR, hHR, hcntR, hptR⟩ := ih g1 hwf (by omega) hW
    have hbombiff : ∀ r, r < g1.height.toNat → ∀ c, c < g1.width.toNat →
        ((cellAtN (cnOuter W g1 R) (r : Int) (c : Int)).value = -1 ↔
          (cellAtN g1 (r : Int) (c : Int)).value = -1) := by
      intro r hr c hc
      rw [hptR r hr c hc]
      split
      · rename_i hcond
        constructor
        · intro hcon
          have := countAdjacentBombs_nonneg g1 (r : Int) (c : Int)
          dsimp at hcon
          omega
        · intro hcon
          exact absurd hcon hcond.2
      · exact Iff.rfl
    have hcong : ∀ (row col : Int),
        countAdjacentBombs (cnOuter W g1 R) row col = countAdjacentBombs g1 row col :=
      countAdjacentBombs_congr hWR hHR hbombiff
    rw [cnOuter_succ]
    obtain ⟨hwf2, hW2, hH2, hcnt2, hpt2⟩ := cnInner_spec R W (cnOuter W g1 R) hwfR
      (by rw [hHR]; omega) (by rw [hWR, ← hW])
    refine ⟨hwf2, hW2.trans hWR, hH2.trans hHR, hcnt2.trans hcntR, ?_⟩
    intro r hr c hc
    rw [hpt2 r (by rw [hHR]; exact hr) c (by rw [hWR]; exact hc)]
    by_cases hrR : r = R
    · have hcell : cellAtN (cnOuter W g1 R) (r : Int) (c : Int) =
          cellAtN g1 (r : Int) (c : Int) := by
        rw [hptR r hr c hc, if_neg (by omega)]
      rw [hcell, hcong]
      by_cases hb : (cellAtN g1 (r : Int) (c : Int)).value ≠ -1
      · rw [if_pos ⟨hrR, by omega, hb⟩, if_pos ⟨by omega, hb⟩]
      · rw [if_neg (by tauto), if_neg (by tauto)]
    · rw [if_neg (by tauto), hptR r hr c hc]
      by_cases hcond : r < R ∧ (cellAtN g1 (r : Int) (c : Int)).value ≠ -1
      · rw [if_pos hcond, if_pos ⟨by omega, hcond.2⟩]
      · rw [if_neg hcond, if_neg ?_]
        rintro ⟨h1, h2⟩
        exact hcond ⟨by omega, h2⟩

theorem computeNumbers_spec (g : Grid) (hwf : wf g) :
    wf (computeNumbers g) ∧
    (computeNumbers g).width = g.width ∧ (computeNumbers g).height = g.height ∧
    (computeNumbers g).revealed_count = g.revealed_count ∧
    (∀ r, r < g.height.toNat → ∀ c, c < g.width.toNat →
      cellAtN (computeNumbers g) (r : Int) (c : Int) =
        if (cellAtN g (r : Int) (c : Int)).value ≠ -1
          then { cellAtN g (r : Int) (c : Int) with
            value := countAdjacentBombs g (r : Int) (c : Int) }
          else cellAtN g (r : Int) (c : Int)) := by
  rw [computeNumbers_eq]
  obtain ⟨h1, h2, h3, h4, h5⟩ := cnOuter_spec g.width.toNat g.height.toNat g hwf (le_refl _) rfl
  refine ⟨h1, h2, h3, h4, ?_⟩
  intro r hr c hc
  rw [h5 r hr c hc]
  by_cases hb : (cellAtN g (r : Int) (c : Int)).value ≠ -1
  · rw [if_pos ⟨hr, hb⟩, if_pos hb]
  · rw [if_neg (by tauto), if_neg hb]

theorem countAdj_fold_count (g : Grid) (row col : Int) :
    ∀ (L : List (Int × Int)) (n : Int),
      L.foldl
        (fun count ij =>
          if 0 ≤ row + ij.1 ∧ row + ij.1 < g.height ∧ 0 ≤ col + ij.2 ∧ col + ij.2 < g.width then
            if (cellAtN g (row + ij.1) (col + ij.2)).value = -1 then count + 1 else count
          else count)
        n =
      n + (L.countP (fun ij =>
        decide (0 ≤ row + ij.1 ∧ row + ij.1 < g.height ∧ 0 ≤ col + ij.2 ∧ col + ij.2 < g.width) &&
        decide ((cellAtN g (row + ij.1) (col + ij.2)).value = -1)) : Int) := by
  intro L
  induction L with
  | nil =>
    intro n
    simp
  | cons ij L ih =>
    intro n
    rw [List.foldl_cons, ih, List.countP_cons]
    by_cases h1 : 0 ≤ row + ij.1 ∧ row + ij.1 < g.height ∧ 0 ≤ col + ij.2 ∧ col + ij.2 < g.width
    · by_cases h2 : (cellAtN g (row + ij.1) (col + ij.2)).value = -1
      · simp only [if_pos h1, if_pos h2, decide_eq_true h1, decide_eq_true h2, Bool.and_self,
          if_pos]
        push_cast
        ring
      · simp only [if_pos h1, if_neg h2]
        have hb : (decide (0 ≤ row + ij.1 ∧ row + ij.1 < g.height ∧ 0 ≤ col + ij.2 ∧ col + ij.2 < g.width) &&
            decide ((cellAtN g (row + ij.1) (col + ij.2)).value = -1)) = false := by
          rw [Bool.and_eq_false_iff]
          right
          exact decide_eq_false h2
        rw [hb]
        simp
    · simp only [if_neg h1]
      have hb : (decide (0 ≤ row + ij.1 ∧ row + ij.1 < g.height ∧ 0 ≤ col + ij.2 ∧ col + ij.2 < g.width) &&
          decide ((cellAtN g (row + ij.1) (col + ij.2)).value = -1)) = false := by
        rw [Bool.and_eq_false_iff]
        left
        exact decide_eq_false h1
      rw [hb]
      simp

theorem countAdjacentBombs_eq_moore {g : Grid} {row col : Int}
    (hcb : (cellAtN g row col).value ≠ -1) :
    countAdjacentBombs g row col = (mooreBombCount g row col : Int) := by
  unfold countAdjacentBombs
  rw [countAdj_fold_count g row col offsets 0, zero_add]
  have hcount : (offsets.countP (fun ij =>
      decide (0 ≤ row + ij.1 ∧ row + ij.1 < g.height ∧ 0 ≤ col + ij.2 ∧ col + ij.2 < g.width) &&
      decide ((cellAtN g (row + ij.1) (col + ij.2)).value = -1))) = mooreBombCount g row col := by
    unfold mooreBombCount
    rw [← List.countP_eq_length_filter]
    apply List.countP_congr
    intro ij _
    by_cases hz : ij = ((0 : Int), (0 : Int))
    · subst hz
      constructor
      · intro hcon
        rw [Bool.and_eq_true, decide_eq_true_eq, decide_eq_true_eq] at hcon
        exfalso
        apply hcb
        have e1 : row + ((0 : Int), (0 : Int)).1 = row := by
          dsimp
          ring
        have e2 : col + ((0 : Int), (0 : Int)).2 = col := by
          dsimp
          ring
        rw [e1, e2] at hcon
        exact hcon.2
      · intro hcon
        rw [Bool.and_eq_true, Bool.and_eq_true, decide_eq_true_eq] at hcon
        exact absurd rfl hcon.1.1
    · constructor
      · intro hcon
        rw [Bool.and_eq_true, decide_eq_true_eq, decide_eq_true_eq] at hcon
        rw [Bool.and_eq_true, Bool.and_eq_true, decide_eq_true_eq, decide_eq_true_eq,
          decide_eq_true_eq]
        exact ⟨⟨hz, hcon.1⟩, hcon.2⟩
      · intro hcon
        rw [Bool.and_eq_true, Bool.and_eq_true, decide_eq_true_eq, decide_eq_true_eq,
          decide_eq_true_eq] at hcon
        rw [Bool.and_eq_true, decide_eq_true_eq, decide_eq_true_eq]
        exact ⟨hcon.1.2, hcon.2⟩
  rw [hcount]

end Minesweeper

namespace Minesweeper

theorem encode_fst {w r c : Nat} (hc : c < w) : (r * w + c) / w = r := by
  have hw : 0 < w := by omega
  rw [Nat.add_comm, Nat.add_mul_div_right _ _ hw, Nat.div_eq_of_lt hc]
  omega

theorem encode_snd {w r c : Nat} (hc : c < w) : (r * w + c) % w = c := by
  rw [Nat.add_comm, Nat.add_mul_mod_self_right, Nat.mod_eq_of_lt hc]

theorem decode_encode {w p : Nat} (hw : 0 < w) : p / w * w + p % w = p := by
  have hdm := Nat.div_add_mod p w
  rw [Nat.mul_comm] at hdm
  exact hdm

/-- C1: generating a board of positive width and height from k distinct
sampled positions places exactly k bombs, and every non-bomb cell ends up
carrying the exact number of bomb-valued cells among its up-to-8 Moore
neighbours, clipped at the board edges. -/
theorem generate_places_bombs_and_counts (w h : Int) (k : Nat) (positions : List Nat)
    (hw : 0 < w) (hh : 0 < h)
    (hnd : positions.Nodup) (hlen : positions.length = k)
    (hmem : ∀ q ∈ positions, q < (w * h).toNat) (hk : k < (w * h).toNat) :
    bombCount (generate (Grid.init w h) positions) = k ∧
    (∀ r, r < h.toNat → ∀ c, c < w.toNat →
      (cellAtN (generate (Grid.init w h) positions) (r : Int) (c : Int)).value ≠ -1 →
      (cellAtN (generate (Grid.init w h) positions) (r : Int) (c : Int)).value =
        (mooreBombCount (generate (Grid.init w h) positions) (r : Int) (c : Int) : Int)) := by
  have hW0 : ((w.toNat : Nat) : Int) = w := Int.toNat_of_nonneg hw.le
  have hH0 : ((h.toNat : Nat) : Int) = h := Int.toNat_of_nonneg hh.le
  have hconv : (w * h).toNat = h.toNat * w.toNat := by
    calc (w * h).toNat = (((w.toNat : Nat) : Int) * ((h.toNat : Nat) : Int)).toNat := by
          rw [hW0, hH0]
    _ = (((w.toNat * h.toNat : Nat) : Int)).toNat := by
          rw [Nat.cast_mul]
    _ = w.toNat * h.toNat := Int.toNat_natCast _
    _ = h.toNat * w.toNat := Nat.mul_comm _ _
  have hwf0 : wf (Grid.init w h) := wf_init w h
  have hmem' : ∀ q ∈ positions,
      q < (Grid.init w h).height.toNat * (Grid.init w h).width.toNat := by
    intro q hq
    have := hmem q hq
    have h2 : (Grid.init w h).height.toNat * (Grid.init w h).width.toNat
        = h.toNat * w.toNat := rfl
    omega
  obtain ⟨hwfP, hWP, hHP, hcntP, hptP⟩ := placeBombs_spec positions (Grid.init w h) hwf0 hmem'
  have hPH : (placeBombs (Grid.init w h) positions).height.toNat = h.toNat := by
    rw [hHP]
    rfl
  have hPW : (placeBombs (Grid.init w h) positions).width.toNat = w.toNat := by
    rw [hWP]
    rfl
  have hptP' : ∀ r, r < h.toNat → ∀ c, c < w.toNat →
      cellAtN (placeBombs (Grid.init w h) positions) (r : Int) (c : Int) =
        if r * w.toNat + c ∈ positions
          then (⟨-1, false, false⟩ : Cell) else (⟨0, false, false⟩ : Cell) := by
    intro r hr c hc
    have hstep := hptP r hr c hc
    rw [cellAtN_init hr hc] at hstep
    have hwn : (Grid.init w h).width.toNat = w.toNat := rfl
    rw [hwn] at hstep
    rw [hstep]
    rfl
  obtain ⟨hwfG, hWG, hHG, hcntG, hptG⟩ :=
    computeNumbers_spec (placeBombs (Grid.init w h) positions) hwfP
  have hGH : (generate (Grid.init w h) positions).height.toNat = h.toNat := by
    show (computeNumbers (placeBombs (Grid.init w h) positions)).height.toNat = h.toNat
    rw [hHG, hHP]
    rfl
  have hGW : (generate (Grid.init w h) positions).width.toNat = w.toNat := by
    show (computeNumbers (placeBombs (Grid.init w h) positions)).width.toNat = w.toNat
    rw [hWG, hWP]
    rfl
  have hgen : generate (Grid.init w h) positions
      = computeNumbers (placeBombs (Grid.init w h) positions) := rfl
  have hbombP : ∀ r, r < h.toNat → ∀ c, c < w.toNat →
      ((cellAtN (placeBombs (Grid.init w h) positions) (r : Int) (c : Int)).value = -1 ↔
        r * w.toNat + c ∈ positions) := by
    intro r hr c hc
    rw [hptP' r hr c hc]
    split
    · rename_i hmem2
      exact iff_of_true rfl hmem2
    · rename_i hmem2
      refine iff_of_false ?_ hmem2
      intro hcon
      have : (0 : Int) = -1 := hcon
      omega
  have hbombG : ∀ r, r < h.toNat → ∀ c, c < w.toNat →
      ((cellAtN (generate (Grid.init w h) positions) (r : Int) (c : Int)).value = -1 ↔
        r * w.toNat + c ∈ positions) := by
    intro r hr c hc
    rw [← hbombP r hr c hc, hgen]
    rw [hptG r (by rw [hPH]; exact hr) c (by rw [hPW]; exact hc)]
    split
    · rename_i hnb
      constructor
      · intro hcon
        have hnn := countAdjacentBombs_nonneg (placeBombs (Grid.init w h) positions)
          (r : Int) (c : Int)
        dsimp at hcon
        omega
      · intro hcon
        exact absurd hcon hnb
    · exact Iff.rfl
  constructor
  · unfold bombCount
    have hfin : cellFinset (generate (Grid.init w h) positions)
        = Finset.range h.toNat ×ˢ Finset.range w.toNat := by
      unfold cellFinset
      rw [hGH, hGW]
    rw [hfin, ← hlen, ← List.toFinset_card_of_nodup hnd]
    apply Finset.card_bij (fun rc _ => rc.1 * w.toNat + rc.2)
    · intro a ha
      rw [Finset.mem_filter] at ha
      obtain ⟨haf, hap⟩ := ha
      rw [Finset.mem_product, Finset.mem_range, Finset.mem_range] at haf
      rw [List.mem_toFinset]
      exact (hbombG a.1 haf.1 a.2 haf.2).mp hap
    · intro a ha b hb hab
      rw [Finset.mem_filter, Finset.mem_product, Finset.mem_range, Finset.mem_range] at ha hb
      have ha2 : a.2 < w.toNat := ha.1.2
      have hb2 : b.2 < w.toNat := hb.1.2
      have h1 : a.1 = b.1 := by
        have e1 := @encode_fst w.toNat a.1 a.2 ha2
        have e2 := @encode_fst w.toNat b.1 b.2 hb2
        rw [← e1, ← e2, hab]
      have h2 : a.2 = b.2 := by
        have e1 := @encode_snd w.toNat a.1 a.2 ha2
        have e2 := @encode_snd w.toNat b.1 b.2 hb2
        rw [← e1, ← e2, hab]
      exact Prod.ext h1 h2
    · intro p hp
      rw [List.mem_toFinset] at hp
      have hplt : p < h.toNat * w.toNat := by
        have := hmem p hp
        omega
      have hw0 : 0 < w.toNat := by omega
      have hdlt : p / w.toNat < h.toNat := by
        rw [Nat.div_lt_iff_lt_mul hw0]
        omega
      have hmlt : p % w.toNat < w.toNat := Nat.mod_lt _ hw0
      refine ⟨(p / w.toNat, p % w.toNat), ?_, decode_encode hw0⟩
      rw [Finset.mem_filter]
      constructor
      · rw [Finset.mem_product, Finset.mem_range, Finset.mem_range]
        exact ⟨hdlt, hmlt⟩
      · apply (hbombG _ hdlt _ hmlt).mpr
        rw [decode_encode hw0]
        exact hp
  · intro r hr c hc hnb
    have hCH : (computeNumbers (placeBombs (Grid.init w h) positions)).height.toNat = h.toNat := by
      rw [hHG, hHP]
      rfl
    have hCW : (computeNumbers (placeBombs (Grid.init w h) positions)).width.toNat = w.toNat := by
      rw [hWG, hWP]
      rfl
    have hr' : r < (placeBombs (Grid.init w h) positions).height.toNat := by
      rw [hPH]
      exact hr
    have hc' : c < (placeBombs (Grid.init w h) positions).width.toNat := by
      rw [hPW]
      exact hc
    have hgat := hptG r hr' c hc'
    rw [hgen] at hnb ⊢
    have hnbP : (cellAtN (placeBombs (Grid.init w h) positions) (r : Int) (c : Int)).value ≠ -1 := by
      intro hcon
      apply hnb
      rw [hgat, if_neg (by tauto)]
      exact hcon
    have hbiff : ∀ r1, r1 < (computeNumbers (placeBombs (Grid.init w h) positions)).height.toNat →
        ∀ c1, c1 < (computeNumbers (placeBombs (Grid.init w h) positions)).width.toNat →
        ((cellAtN (placeBombs (Grid.init w h) positions) (r1 : Int) (c1 : Int)).value = -1 ↔
          (cellAtN (computeNumbers (placeBombs (Grid.init w h) positions)) (r1 : Int) (c1 : Int)).value = -1) := by
      intro r1 hr1 c1 hc1
      rw [hCH] at hr1
      rw [hCW] at hc1
      rw [hbombP r1 hr1 c1 hc1]
      have hgb := hbombG r1 hr1 c1 hc1
      rw [hgen] at hgb
      exact hgb.symm
    have hcongr := @countAdjacentBombs_congr
      (placeBombs (Grid.init w h) positions)
      (computeNumbers (placeBombs (Grid.init w h) positions))
      hWG.symm hHG.symm hbiff (r : Int) (c : Int)
    have hval : (cellAtN (computeNumbers (placeBombs (Grid.init w h) positions)) (r : Int) (c : Int)).value
        = countAdjacentBombs (placeBombs (Grid.init w h) positions) (r : Int) (c : Int) := by
      rw [hgat, if_pos hnbP]
    rw [hval, hcongr]
    exact countAdjacentBombs_eq_moore hnb

end Minesweeper

namespace Minesweeper

/-- Every cell of a freshly constructed grid is unrevealed. -/
theorem init_fresh (w h : Int) :
    ∀ p, inB (Grid.init w h) p → (cellAtP (Grid.init w h) p).revealed = false := by
  intro p hp
  obtain ⟨h1, h2, h3, h4⟩ := hp
  have hhh : (Grid.init w h).height = h := rfl
  have hww : (Grid.init w h).width = w := rfl
  rw [hhh] at h2
  rw [hww] at h4
  have e1 : p.1 = ((p.1.toNat : Nat) : Int) := (Int.toNat_of_nonneg h1).symm
  have e2 : p.2 = ((p.2.toNat : Nat) : Int) := (Int.toNat_of_nonneg h3).symm
  show (cellAtN (Grid.init w h) p.1 p.2).revealed = false
  rw [e1, e2, cellAtN_init (by omega) (by omega)]
  rfl

/-- C7 counterexample: get_cell with row -1 on a 2-by-2 grid does not fail;
Python negative indexing wraps around and returns the last row's cell. -/
theorem get_cell_negative_index_succeeds :
    (-1 : Int) < 0 ∧ getCellPy (Grid.init 2 2) (-1) 0 = some Cell.default := by
  decide

/-- C7 amended: on a well-formed positive board, the cellAt query fails
(IndexError) exactly when row is outside [-height, height) or, the row being
valid, col is outside [-width, width); negative in-range indices wrap
Python-style instead of failing. -/
theorem get_cell_failure_iff (g : Grid) (row col : Int) (hwf : wf g)
    (hw : 0 < g.width) (hh : 0 < g.height) :
    (getCellPy g row col = none ↔
      ¬(-g.height ≤ row ∧ row < g.height ∧ -g.width ≤ col ∧ col < g.width)) := by
  have hlen : g.cells.length = g.height.toNat := hwf.1
  have hlenI : ((g.cells.length : Nat) : Int) = g.height := by
    rw [hlen]
    omega
  unfold getCellPy
  cases hrow : pyIdx g.cells.length row with
  | none =>
    have h1 := pyIdx_eq_none_iff.mp hrow
    refine iff_of_true rfl ?_
    rintro ⟨ha, hb, -, -⟩
    omega
  | some r =>
    have hr := pyIdx_lt hrow
    have hrnone : ¬(row < -((g.cells.length : Nat) : Int) ∨ ((g.cells.length : Nat) : Int) ≤ row) := by
      intro hcon
      have h2 := pyIdx_eq_none_iff.mpr hcon
      rw [h2] at hrow
      cases hrow
    dsimp only
    rw [row_length hwf hr]
    cases hcol : pyIdx g.width.toNat col with
    | none =>
      have h2 := pyIdx_eq_none_iff.mp hcol
      refine iff_of_true rfl ?_
      rintro ⟨-, -, hc1, hc2⟩
      have hwI : ((g.width.toNat : Nat) : Int) = g.width := by omega
      omega
    | some c =>
      refine iff_of_false (by simp) ?_
      intro hcon
      apply hcon
      have hcnone : ¬(col < -((g.width.toNat : Nat) : Int) ∨ ((g.width.toNat : Nat) : Int) ≤ col) := by
        intro hcon2
        have h2 := pyIdx_eq_none_iff.mpr hcon2
        rw [h2] at hcol
        cases hcol
      have hwI : ((g.width.toNat : Nat) : Int) = g.width := by omega
      refine ⟨by omega, by omega, by omega, by omega⟩

/-- C7 amended witness at a concrete out-of-range row. -/
theorem get_cell_failure_iff_witness :
    wf (Grid.init 2 2) ∧
    (getCellPy (Grid.init 2 2) 5 0 = none ↔
      ¬(-(Grid.init 2 2).height ≤ 5 ∧ (5 : Int) < (Grid.init 2 2).height ∧
        -(Grid.init 2 2).width ≤ 0 ∧ (0 : Int) < (Grid.init 2 2).width)) :=
  ⟨by decide, get_cell_failure_iff (Grid.init 2 2) 5 0 (by decide) (by decide) (by decide)⟩

/-- C8 counterexample: constructing a grid of width 0 does not fail with any
dimension error; it simply yields five rows of no cells. -/
theorem init_zero_width_succeeds :
    Grid.init 0 5 = { width := 0, height := 5, cells := List.replicate 5 [], revealed_count := 0 } ∧
    ¬(0 < (0 : Int)) := by
  decide

/-- C8 amended: construction never fails on dimensions (the source has no
dimension check and Python range yields no cells for non-positive sizes);
for every positive width and height it yields a width-by-height matrix in
which every cell has value Empty (0), revealed = false and flagged = false,
with revealed_count 0. -/
theorem init_builds_default_grid (w h : Int) (hw : 0 < w) (hh : 0 < h) :
    wf (Grid.init w h) ∧ (Grid.init w h).width = w ∧ (Grid.init w h).height = h ∧
    (Grid.init w h).revealed_count = 0 ∧
    ∀ r, r < h.toNat → ∀ c, c < w.toNat →
      cellAtN (Grid.init w h) (r : Int) (c : Int) = Cell.default := by
  refine ⟨wf_init w h, rfl, rfl, rfl, ?_⟩
  intro r hr c hc
  exact cellAtN_init hr hc

/-- C8 amended witness on a 2-by-3 board. -/
theorem init_builds_default_grid_witness :
    wf (Grid.init 2 3) ∧ (Grid.init 2 3).width = 2 ∧ (Grid.init 2 3).height = 3 ∧
    (Grid.init 2 3).revealed_count = 0 ∧
    ∀ r, r < (3 : Int).toNat → ∀ c, c < (2 : Int).toNat →
      cellAtN (Grid.init 2 3) (r : Int) (c : Int) = Cell.default :=
  init_builds_default_grid 2 3 (by decide) (by decide)

/-- The 1-by-1 grid whose only cell has just been flagged. -/
def flaggedOneCell : Grid :=
  { width := 1, height := 1, cells := [[⟨0, false, true⟩]], revealed_count := 0 }

/-- C6 (code bug): after flagging the only cell of a 1-by-1 grid, the TAB
reveal-all of the modular variant (Cell.reveal on every cell) leaves the
cell revealed but STILL flagged: Cell.reveal never clears the flag, while
the spec and the monolithic variant (which writes (value, True, False))
require flagged = false after reveal-all. -/
theorem reveal_all_keeps_flag :
    flag_cell (Grid.init 1 1) 0 0 = some flaggedOneCell ∧
    (cellAtN (revealAllCells flaggedOneCell) 0 0).revealed = true ∧
    (cellAtN (revealAllCells flaggedOneCell) 0 0).flagged = true := by
  decide

/-- The monolithic tuple variant does clear the flag on the same input,
matching the spec. -/
theorem reveal_all_tuple_clears_flag :
    (cellAtN (revealAllTuple flaggedOneCell) 0 0).revealed = true ∧
    (cellAtN (revealAllTuple flaggedOneCell) 0 0).flagged = false := by
  decide

end Minesweeper

namespace Minesweeper

/-- C1 witness: a 3-by-3 board with bombs sampled at cells 0 and 8. -/
theorem generate_places_bombs_and_counts_witness :
    bombCount (generate (Grid.init 3 3) [0, 8]) = 2 ∧
    (∀ r, r < (3 : Int).toNat → ∀ c, c < (3 : Int).toNat →
      (cellAtN (generate (Grid.init 3 3) [0, 8]) (r : Int) (c : Int)).value ≠ -1 →
      (cellAtN (generate (Grid.init 3 3) [0, 8]) (r : Int) (c : Int)).value =
        (mooreBombCount (generate (Grid.init 3 3) [0, 8]) (r : Int) (c : Int) : Int)) :=
  generate_places_bombs_and_counts 3 3 2 [0, 8] (by decide) (by decide) (by decide)
    (by decide) (by decide) (by decide)

/-- The grid produced by revealing the only cell of a fresh 1-by-1 board. -/
def c2Result : Grid := (reveal_cells (Grid.init 1 1) 0 0).getD (Grid.init 1 1)

theorem c2Result_run : reveal_cells (Grid.init 1 1) 0 0 = some c2Result := by
  obtain ⟨x, hx⟩ :=
    Option.isSome_iff_exists.mp (@reveal_cells_isSome (Grid.init 1 1) (by decide) 0 0)
  show reveal_cells (Grid.init 1 1) 0 0 =
    some ((reveal_cells (Grid.init 1 1) 0 0).getD (Grid.init 1 1))
  rw [hx]
  rfl

/-- C2 witness on the 1-by-1 board whose single cell is Empty. -/
theorem flood_fill_reveals_region_witness :
    (∀ p, inB (Grid.init 1 1) p → ((cellAtP c2Result p).revealed = true ↔
      zeroRegion (Grid.init 1 1) (0, 0) p ∨ regionBorder (Grid.init 1 1) (0, 0) p)) ∧
    (∀ p, regionBorder (Grid.init 1 1) (0, 0) p →
      (cellAtP (Grid.init 1 1) p).value ≠ -1 ∧ (cellAtP (Grid.init 1 1) p).value ≠ 0) :=
  flood_fill_reveals_region (Grid.init 1 1) 0 0 c2Result (by decide) (by decide)
    (init_fresh 1 1) (by decide) (by decide) (by decide) c2Result_run

/-- C3 witness on the same 1-by-1 reveal. -/
theorem flood_fill_safety_witness :
    (∀ p, inB (Grid.init 1 1) p → (cellAtP (Grid.init 1 1) p).flagged = true →
      (cellAtP c2Result p).revealed = (cellAtP (Grid.init 1 1) p).revealed) ∧
    (∀ p, inB (Grid.init 1 1) p → (cellAtP (Grid.init 1 1) p).value = -1 →
      p ≠ ((0 : Int), (0 : Int)) →
      (cellAtP c2Result p).revealed = (cellAtP (Grid.init 1 1) p).revealed) :=
  flood_fill_safety (Grid.init 1 1) 0 0 c2Result (by decide) (by decide) (by decide)
    c2Result_run

/-- The 1-by-1 grid whose only cell is a bomb. -/
def bombOneCell : Grid :=
  { width := 1, height := 1, cells := [[⟨-1, false, false⟩]], revealed_count := 0 }

/-- C4 witness: clicking the bomb of a 1-by-1 board. -/
theorem bomb_click_witness :
    ((cellAtP bombOneCell (0, 0)).flagged = false →
      ∃ g', click bombOneCell 0 0 1 = some (false, g') ∧
        (cellAtP g' (0, 0)).revealed = true ∧
        (cellAtP g' (0, 0)).value = (cellAtP bombOneCell (0, 0)).value ∧
        (cellAtP g' (0, 0)).flagged = (cellAtP bombOneCell (0, 0)).flagged ∧
        (∀ p, inB bombOneCell p → p ≠ (0, 0) → cellAtP g' p = cellAtP bombOneCell p)) ∧
    ((cellAtP bombOneCell (0, 0)).flagged = true →
      click bombOneCell 0 0 1 = some (true, bombOneCell)) :=
  bomb_click bombOneCell 0 0 (by decide) (by decide) (by decide)

/-- C5 witness on the 1-by-1 empty board with no bombs. -/
theorem win_detection_witness :
    (((cellAtP (Grid.init 1 1) (0, 0)).value = -1 ∧
        (cellAtP (Grid.init 1 1) (0, 0)).flagged = false) →
      ∃ g', clickOutcome (Grid.init 1 1) 0 0 0 = some (RevealOutcome.HitBomb, g')) ∧
    (¬((cellAtP (Grid.init 1 1) (0, 0)).value = -1 ∧
        (cellAtP (Grid.init 1 1) (0, 0)).flagged = false) →
      ∃ g' o, clickOutcome (Grid.init 1 1) 0 0 0 = some (o, g') ∧
        (o = RevealOutcome.Won ↔
          (g'.revealed_count : Int) = (Grid.init 1 1).width * (Grid.init 1 1).height - ((0 : Nat) : Int)) ∧
        (o = RevealOutcome.Continuing ↔
          (g'.revealed_count : Int) ≠ (Grid.init 1 1).width * (Grid.init 1 1).height - ((0 : Nat) : Int)) ∧
        o ≠ RevealOutcome.HitBomb) :=
  win_detection (Grid.init 1 1) 0 0 0 (by decide) (by decide)

/-- C9 witness: the canonical fuel suffices on a 1-by-1 board. -/
theorem flood_fill_terminates_witness : (reveal_cells (Grid.init 1 1) 0 0).isSome :=
  flood_fill_terminates (Grid.init 1 1) 0 0 (by decide) (by decide)

/-- C10 witness: the invariant holds after revealing the only cell of a fresh
1-by-1 board. -/
theorem revealed_count_invariant_witness :
    c2Result.revealed_count = revealedCells c2Result :=
  revealed_count_invariant (Grid.init 1 1) (by decide) (by decide) (init_fresh 1 1)
    [GameOp.reveal 0 0] c2Result
    (by simp only [applyOps, applyOp, c2Result_run])

end Minesweeper
